import Mathlib

/-!
# Verification of `well-plate-data` (`src/wellPlateData.js`)

A shallow embedding of the plate manager in `src/wellPlateData.js`.
Strings are modelled as `List Char`, JavaScript numbers as `ℚ`
(every finite double is a finite decimal, hence a rational), JavaScript
objects as Lean structures, and fallible code (property access on
`undefined`, thrown errors) as `Except JsError _`.

External modules imported by the source file (`./well/well`,
`./plateSample`, `./utilities/*`, the npm package `univariate-tests`)
are not part of the repository snapshot under `src/`; their models are
marked `Modelled from the spec:` and follow the specification's wording.
-/

namespace WellPlate

/-- ASCII decimal digit characters, the regex class `[0-9]`. -/
def isDigitC (c : Char) : Bool := 48 ≤ c.toNat && c.toNat ≤ 57

/-- ASCII letters, the regex class `[a-zA-Z]`. -/
def isAlphaC (c : Char) : Bool :=
  (65 ≤ c.toNat && c.toNat ≤ 90) || (97 ≤ c.toNat && c.toNat ≤ 122)

/-- The character for a decimal digit value. -/
def digitToChar : ℕ → Char
  | 0 => '0' | 1 => '1' | 2 => '2' | 3 => '3' | 4 => '4'
  | 5 => '5' | 6 => '6' | 7 => '7' | 8 => '8' | _ => '9'

/-- The numeric value of a decimal digit character. -/
def charVal (c : Char) : ℕ := c.toNat - 48

/-- Base-10 digits, least significant first, by structural recursion on
a fuel argument so that the kernel can evaluate it (`Nat.digits` is
defined by well-founded recursion, which the kernel cannot unfold). -/
def digitsRev : ℕ → ℕ → List ℕ
  | 0, _ => []
  | fuel + 1, n => if n = 0 then [] else n % 10 :: digitsRev fuel (n / 10)

/-- Decimal notation of a natural number, most significant digit first;
`0` prints as `"0"`, as JavaScript number-to-string does. -/
def natToChars (n : ℕ) : List Char :=
  if n = 0 then ['0'] else ((digitsRev n n).map digitToChar).reverse

/-- Decimal notation of an integer (JavaScript number-to-string). -/
def intToChars (z : ℤ) : List Char :=
  if z < 0 then '-' :: natToChars z.natAbs else natToChars z.natAbs

/-- Value of a most-significant-first string of digit characters. -/
def charsAsNat (l : List Char) : ℕ := l.foldl (fun a c => a * 10 + charVal c) 0

/-- Full parse of a non-empty all-digit string. -/
def charsToNat? (l : List Char) : Option ℕ :=
  if l ≠ [] ∧ l.all isDigitC then some (charsAsNat l) else none

/-- Longest digit prefix, `none` when there is none. -/
def parseDigitsPrefix (l : List Char) : Option ℕ :=
  let ds := l.takeWhile isDigitC
  if ds.isEmpty then none else some (charsAsNat ds)

/-- Kernel-computable rational addition. Batteries marks `Rat.add`,
`Rat.sub`, `Rat.mul` and `Rat.inv` `@[irreducible]`, which blocks
kernel evaluation (`decide`, `rfl`) on any concrete state; the
embedding therefore computes with `Rat.divInt`-based equivalents,
each proved equal to the standard operation below. -/
def qadd (a b : ℚ) : ℚ := Rat.divInt (a.num * b.den + b.num * a.den) (a.den * b.den)

/-- Kernel-computable rational subtraction. -/
def qsub (a b : ℚ) : ℚ := Rat.divInt (a.num * b.den - b.num * a.den) (a.den * b.den)

/-- Kernel-computable rational multiplication. -/
def qmul (a b : ℚ) : ℚ := Rat.divInt (a.num * b.num) (a.den * b.den)

/-- Kernel-computable rational division (`qdiv a 0 = 0`, as in ℚ). -/
def qdiv (a b : ℚ) : ℚ := Rat.divInt (a.num * b.den) (a.den * b.num)

/-- Kernel-computable list sum. -/
def qsum (l : List ℚ) : ℚ := l.foldr qadd 0

/-- Kernel-computable power. -/
def qpow (a : ℚ) : ℕ → ℚ
  | 0 => 1
  | n + 1 => qmul a (qpow a n)

/-- Leading sign of a numeric literal: `(negative?, remaining text)`. -/
def stripSign (l : List Char) : Bool × List Char :=
  match l with
  | [] => (false, [])
  | c :: rest =>
    if c = '-' then (true, rest) else if c = '+' then (false, rest) else (false, l)

/-- JavaScript `parseInt(s, 10)`: optional sign, then the longest digit
prefix; `none` stands for `NaN`. -/
def parseIntPrefix (l : List Char) : Option ℤ :=
  let sn := stripSign l
  (parseDigitsPrefix sn.2).map (fun n => if sn.1 then -(n : ℤ) else (n : ℤ))

/-- Unsigned part of `parseFloat`: digit run, optional `.` and a
fractional digit run; `none` stands for `NaN`. -/
def parseFloatCore (l : List Char) : Option ℚ :=
  let ds := l.takeWhile isDigitC
  let fs : List Char :=
    match l.dropWhile isDigitC with
    | '.' :: r => r.takeWhile isDigitC
    | _ => []
  if ds.isEmpty && fs.isEmpty then none
  else some (qadd (charsAsNat ds : ℚ) (qdiv (charsAsNat fs : ℚ) (qpow 10 fs.length)))

/-- JavaScript `parseFloat(s)` on decimal notation: optional sign, then
the unsigned decimal literal; `none` stands for `NaN`. -/
def parseFloatChars (l : List Char) : Option ℚ :=
  let sn := stripSign l
  (parseFloatCore sn.2).map (fun m => if sn.1 then -m else m)

/-- The exponent with which a finite-decimal rational scales to an
integer: the least `k < 400` with `(q * 10 ^ k).den = 1` (0 otherwise). -/
def decExp (q : ℚ) : ℕ :=
  (((List.range 400).find? (fun k => (qmul q (qpow 10 k)).den == 1)).getD 0)

/-- `Modelled from the spec:` JavaScript number-to-string conversion for
finite-decimal values (plain decimal notation, no exponent form): the
scaled integer's digits with a decimal point inserted `decExp q` places
from the right. Every value a plate can round-trip "within floating-point
tolerance" is of this form, since every finite double is a finite
decimal. -/
def printDecimal (q : ℚ) : List Char :=
  let k := decExp q
  let m := (qmul q (qpow 10 k)).num
  let ds0 := natToChars m.natAbs
  let ds := if ds0.length ≤ k then List.replicate (k + 1 - ds0.length) '0' ++ ds0 else ds0
  let body := if k = 0 then ds else ds.take (ds.length - k) ++ '.' :: ds.drop (ds.length - k)
  if m < 0 then '-' :: body else body

/-- A rational that is a finite decimal with exponent below 400; the
class of values `printDecimal` renders exactly. -/
def IsDec (q : ℚ) : Prop := ∃ k, k < 400 ∧ (qmul q (qpow 10 k)).den = 1

instance (q : ℚ) : Decidable (IsDec q) := by
  unfold IsDec
  exact decidable_of_iff (∃ k ∈ Finset.range 400, (qmul q (qpow 10 k)).den = 1)
    (by simp [Finset.mem_range])

/-- Shorthand for string literals as character lists. -/
def strL (s : String) : List Char := s.data

/-- The worker of `regexRuns`, structurally recursive on a fuel
argument so that the kernel can evaluate it (each step consumes at
least one character). -/
def regexRunsFuel : ℕ → List Char → List (List Char)
  | 0, _ => []
  | _, [] => []
  | fuel + 1, c :: cs =>
    if isDigitC c then
      (c :: cs.takeWhile isDigitC) :: regexRunsFuel fuel (cs.dropWhile isDigitC)
    else if isAlphaC c then
      (c :: cs.takeWhile isAlphaC) :: regexRunsFuel fuel (cs.dropWhile isAlphaC)
    else regexRunsFuel fuel cs

/-- Splitting into the maximal runs matched by the global regex
`/(?:[0-9]+)|(?:[a-zA-Z]+)/g` of `getTemplate` (line 178). -/
def regexRuns (l : List Char) : List (List Char) := regexRunsFuel l.length l

/-- First-occurrence deduplication, the grouping order of §4.3. -/
def dedupFirst {α : Type} [DecidableEq α] : List α → List α
  | [] => []
  | x :: xs => x :: (dedupFirst xs).filter (fun y => y ≠ x)

/-- Thrown failures: the length-mismatch `Error` of `addReagentsFromArray`,
the malformed-curve `Error` of the curve loaders, and the `TypeError`
raised by reading a property of `undefined`. -/
inductive JsError where
  | lengthMismatch
  | badShape
  | undefinedAccess
deriving DecidableEq

/-- A reagent record: `label`, `unit`, `concentration`. -/
structure Reagent where
  label : List Char
  unit : List Char
  concentration : ℚ
deriving DecidableEq

/-- An `(x, y)` curve (the `.data` payload of a well's spectrum or
growth curve). -/
structure Curve where
  x : List ℚ := []
  y : List ℚ := []
deriving DecidableEq

/-- A metric-name → scalar map; JavaScript objects keep insertion order,
modelled as an association list. -/
abbrev AnalysisMap := List (List Char × ℚ)

/-- First-match association lookup; `none` models `undefined`. -/
def alookup (m : AnalysisMap) (k : List Char) : Option ℚ :=
  (m.find? (fun p => p.1 == k)).map Prod.snd

/-- `Modelled from the spec:` the raw and processed views of a well's
analysis (§3, `./well/well` is not under src/). -/
structure WellAnalysis where
  raw : AnalysisMap := []
  processed : AnalysisMap := []
deriving DecidableEq

/-- Display metadata of a well (§3). -/
structure WellMetadata where
  display : Bool := true
  color : List Char := []
deriving DecidableEq

/-- `Modelled from the spec:` the Well entity (§3; `./well/well` is not
under src/): identity, plate index, positional label, reagents, the two
curves (their `.data` wrapper flattened into the curve itself), analysis
and display metadata. -/
structure Well where
  id : List Char
  plate : List Char
  label : List Char
  reagents : List Reagent := []
  spectrum : Curve := {}
  growthCurve : Curve := {}
  analysis : WellAnalysis := {}
  metadata : WellMetadata := {}
deriving DecidableEq

/-- `Modelled from the spec:` `Well#addReagents` stores the supplied
reagent list on the well. -/
def Well.addReagents (w : Well) (rs : List Reagent) : Well := { w with reagents := rs }

/-- `Modelled from the spec:` `Well#addSpectrum` stores the supplied curve. -/
def Well.addSpectrum (w : Well) (c : Curve) : Well := { w with spectrum := c }

/-- `Modelled from the spec:` `Well#addGrowthCurve` stores the supplied curve. -/
def Well.addGrowthCurve (w : Well) (c : Curve) : Well := { w with growthCurve := c }

/-- `Modelled from the spec:` `Well#addAnalysis` stores the supplied
analysis; with no entry supplied (`undefined`, when the input array is
shorter than the well list) the well is left as it is. -/
def Well.addAnalysis (w : Well) (a : Option WellAnalysis) : Well :=
  match a with
  | some a => { w with analysis := a }
  | none => w

/-- `Modelled from the spec:` `Well#updateReagents` replaces the well's
reagent list (used by `readTemplate`). -/
def Well.updateReagents (w : Well) (rs : List Reagent) : Well := { w with reagents := rs }

/-- One result object pushed onto a member well's `test` list by
`WellPlateData.prototype.test` (lines 486-499). `value` is `Option`
because `well.analysis.processed[key]` can be `undefined`; `pass` is
`Option Bool` because the not-evaluated branch writes `pass: undefined`;
`criticalValue` models the JavaScript property of that name, which
neither branch ever writes — reading it always gives `undefined`
(`none`). -/
structure TestEntry where
  label : List Char
  color : List Char
  value : Option ℚ
  score : ℚ
  pass : Option Bool
  criticalValue : Option ℚ := none
deriving DecidableEq

/-- A member-well reference inside a sample: `{id, inAverage}` plus the
`test` results that `test` pushes onto it. -/
structure SampleWellRef where
  id : List Char
  inAverage : Bool
  test : List TestEntry := []
deriving DecidableEq

/-- The metadata object passed to the `PlateSample` constructor
(lines 436-441). -/
structure SampleMetadata where
  color : List Char := []
  display : Bool := true
  category : Option (List Char) := none
  group : Option (List Char) := none
deriving DecidableEq

/-- The `analysis` aggregate `updateSamples` assigns to a sample
(lines 457-461): raw view, averaged view, and the per-well snapshot. -/
structure SampleAnalysis where
  raw : List (List Char × WellAnalysis)
  averaged : AnalysisMap
  wells : List (List Char × WellAnalysis)
deriving DecidableEq

/-- `Modelled from the spec:` the PlateSample entity (§3;
`./plateSample` is not under src/): the constructor fields passed at
lines 431-445 plus the fields `updateSamples`/`test` assign afterwards
(defaulted until first assigned). -/
structure PlateSample where
  id : List Char
  label : List Char
  wells : List SampleWellRef
  metadata : SampleMetadata := {}
  analysis : Option SampleAnalysis := none
  averagedSpectra : Curve := {}
  averagedGrowthCurves : Curve := {}
  reagents : List Reagent := []
  grubbsCriticalValue : Option ℚ := none
deriving DecidableEq

/-- The plate manager state: its well collection, sample collection and
plate-type string. -/
structure WellPlateData where
  wells : List Well
  samples : List PlateSample
  typeOfPlate : List Char
deriving DecidableEq

/-- `Modelled from the spec:` `getSamplesIDs` (§4.3, not under src/):
the ids of the wells of each replicate group, one group per distinct
positional label in first-occurrence order, members in well order. -/
def getSamplesIDs (wells : List Well) : List (List (List Char)) :=
  (dedupFirst (wells.map Well.label)).map
    (fun l => (wells.filter (fun w => w.label = l)).map Well.id)

/-- `Modelled from the spec:` `getRandomId` generates opaque sample
identifiers; their randomness is immaterial to every claim, modelled as
an indexed supply. -/
def sampleIdSupply (i : ℕ) : List Char := strL "smp" ++ natToChars i

/-- `Modelled from the spec:` `averageArrays` (§4.4): curves with empty
sequences are excluded; the x sequence is taken from the first
contributing curve and each y value is the arithmetic mean across the
contributing curves; with no contributing curve the result is empty. -/
def averageArrays (curves : List Curve) : Curve :=
  let qs := curves.filter (fun c => !c.x.isEmpty && !c.y.isEmpty)
  match qs with
  | [] => {}
  | c :: _ =>
    { x := c.x
      y := (List.range c.y.length).map
        (fun i => qdiv (qsum (qs.map (fun q => q.y.getD i 0))) (qs.length : ℚ)) }

/-- `Modelled from the spec:` `rawAnalysis` (§4.5): one row per member
well, a copy of that well's analysis together with its id. -/
def rawAnalysis (wells : List Well) : List (List Char × WellAnalysis) :=
  wells.map (fun w => (w.id, w.analysis))

/-- `Modelled from the spec:` `averageAnalysis` (§4.5): for each metric
key present in any member well's processed analysis, the arithmetic mean
of the values of the wells that define it. -/
def averageAnalysis (wells : List Well) : AnalysisMap :=
  let keys := dedupFirst (wells.flatMap (fun w => w.analysis.processed.map Prod.fst))
  keys.map (fun k =>
    let vs := wells.filterMap (fun w => alookup w.analysis.processed k)
    (k, qdiv (qsum vs) (vs.length : ℚ)))

/-- `Modelled from the spec:` the 95% two-sided Grubbs critical values
for sample sizes 3–20 (§4.6); `none` outside that range. The n = 5
entry is the 1.672 the specification quotes. -/
def grubbsTable : ℕ → Option ℚ
  | 3 => some (Rat.divInt 1153 1000) | 4 => some (Rat.divInt 1463 1000) | 5 => some (Rat.divInt 1672 1000)
  | 6 => some (Rat.divInt 1822 1000) | 7 => some (Rat.divInt 1938 1000) | 8 => some (Rat.divInt 2032 1000)
  | 9 => some (Rat.divInt 2110 1000) | 10 => some (Rat.divInt 2176 1000) | 11 => some (Rat.divInt 2234 1000)
  | 12 => some (Rat.divInt 2285 1000) | 13 => some (Rat.divInt 2331 1000) | 14 => some (Rat.divInt 2372 1000)
  | 15 => some (Rat.divInt 2409 1000) | 16 => some (Rat.divInt 2443 1000) | 17 => some (Rat.divInt 2475 1000)
  | 18 => some (Rat.divInt 2504 1000) | 19 => some (Rat.divInt 2531 1000) | 20 => some (Rat.divInt 2557 1000)
  | _ => none

/-- One per-value result of the external Grubbs provider. -/
structure GrubbsItem where
  value : ℚ
  score : ℚ
  pass : Option Bool
deriving DecidableEq

/-- The `{test, criticalValue}` pair the external provider returns (§9). -/
structure GrubbsResult where
  test : List GrubbsItem
  criticalValue : Option ℚ
deriving DecidableEq

/-- `Modelled from the spec:` the `univariate-tests` Grubbs provider
(§4.6, §9; an npm dependency, not under src/). The real statistic
`|v − mean| / sd` is irrational in general; the model records its square
(exact over ℚ, 0 in the degenerate all-equal case) and decides pass/fail
by the equivalent squared comparison against the critical value. Outside
the 3–20 table range no verdict is given. No claim below depends on the
magnitude of an evaluated statistic. -/
def grubbs (values : List ℚ) : GrubbsResult :=
  let n := values.length
  let mean := qdiv (qsum values) (n : ℚ)
  let ssq := qsum (values.map (fun v => qmul (qsub v mean) (qsub v mean)))
  let variance := qdiv ssq (qsub (n : ℚ) 1)
  match grubbsTable n with
  | some crit =>
    { test := values.map (fun v =>
        { value := v
          score := if ssq = 0 then 0 else qdiv (qmul (qsub v mean) (qsub v mean)) variance
          pass := some (decide (qmul (qsub v mean) (qsub v mean)
            ≤ qmul (qmul crit crit) variance)) })
      criticalValue := some crit }
  | none =>
    { test := values.map (fun v => { value := v, score := 0, pass := none })
      criticalValue := none }

/-- `getWells` (lines 149-156): the wells whose id is in `ids`, or all
wells when no id set is given. -/
def WellPlateData.getWells (st : WellPlateData) (ids : Option (List (List Char)) := none) :
    List Well :=
  st.wells.filter (fun w =>
    match ids with
    | none => true
    | some l => decide (w.id ∈ l))

/-- `getWell` (lines 162-169): the first well with the given id;
`none` models the implicit `undefined` return. -/
def WellPlateData.getWell (st : WellPlateData) (id : List Char) : Option Well :=
  st.wells.find? (fun w => decide (id = w.id))

/-- The pass/fail classification colors of `test` (line 488) and the
not-evaluated color (line 495). -/
def passColor : List Char := strL "#46FF8F"

/-- The fail classification color. -/
def failColor : List Char := strL "#FF4649"

/-- The not-evaluated classification color. -/
def notEvaluatedColor : List Char := strL "#EAEAEA"

/-- The placeholder entry `test` pushes for a member excluded from the
evaluation set (lines 493-499): the well's metric value, score 0,
`pass: undefined` and the not-evaluated color. -/
def notEvalEntry (well : Well) (key : List Char) : TestEntry :=
  { label := key
    color := notEvaluatedColor
    value := alookup well.analysis.processed key
    score := 0
    pass := none }

/-- The entry `test` pushes for an evaluated member (lines 486-490):
the classification color (green exactly when the spread item's `pass`
is truthy) followed by the item's `value`, `score` and `pass`. -/
def evalEntry (item : GrubbsItem) (key : List Char) : TestEntry :=
  { label := key
    color := if item.pass = some true then passColor else failColor
    value := some item.value
    score := item.score
    pass := item.pass }

/-- The values handed to the provider for one metric key (line 480): a
member lacking the key supplies `undefined`, represented as 0 — no claim
below evaluates that case. -/
def keyValues (wells : List Well) (key : List Char) : List ℚ :=
  wells.map (fun w => (alookup w.analysis.processed key).getD 0)

/-- The result object `test` pushes for one member reference and one
metric key (lines 484-500): an `inAverage` member gets the evaluated
entry for the provider item at `ids.indexOf(id)`; an excluded member's
well is looked up on the plate (`undefined` raises) and gets the
placeholder. -/
def entryForRef (st : WellPlateData) (ids : List (List Char)) (res : GrubbsResult)
    (key : List Char) (r : SampleWellRef) : Except JsError TestEntry :=
  if decide (r.id ∈ ids) then
    match res.test.get? (ids.indexOf r.id) with
    | some item => .ok (evalEntry item key)
    | none => .error .undefinedAccess
  else
    match st.getWell r.id with
    | some well => .ok (notEvalEntry well key)
    | none => .error .undefinedAccess

/-- One iteration of the `for (const key of keys)` loop of `test`
(lines 479-502): run the provider on the evaluation set's values for
`key` (a member lacking the key supplies `undefined` to the provider,
represented as 0 — no claim below evaluates this case), record the
provider's critical value on the sample, and push one entry per member
reference. -/
def testKeyStep (st : WellPlateData) (ids : List (List Char)) (wells : List Well)
    (key : List Char) (refs : List SampleWellRef) :
    Except JsError (List SampleWellRef × Option ℚ) :=
  (refs.mapM (fun r =>
    (entryForRef st ids (grubbs (keyValues wells key)) key r).map
      (fun e => { r with test := r.test ++ [e] }))).map
    (fun refs2 => (refs2, (grubbs (keyValues wells key)).criticalValue))

/-- The evaluation-set ids of a sample: its members currently flagged
`inAverage` (lines 472-474). -/
def evalIds (sample : PlateSample) : List (List Char) :=
  (sample.wells.filter (fun r => r.inAverage)).map (fun r => r.id)

/-- `WellPlateData.prototype.test` (lines 470-503). The keys come from
`wells[0].analysis.processed`, read before the emptiness guard, so an
empty evaluation set raises; with keys present every member reference's
`test` list is reset to `[]` and refilled, and `grubbsCriticalValue`
keeps the critical value of the last key processed. -/
def WellPlateData.test (st : WellPlateData) (sample : PlateSample) :
    Except JsError PlateSample :=
  match st.getWells (some (evalIds sample)) with
  | [] => .error .undefinedAccess
  | w0 :: rest =>
    if (w0.analysis.processed.map Prod.fst).isEmpty then .ok sample
    else
      ((w0.analysis.processed.map Prod.fst).foldlM
        (fun acc key => testKeyStep st (evalIds sample) (w0 :: rest) key acc.1)
        (sample.wells.map (fun r => { r with test := ([] : List TestEntry) }),
          sample.grubbsCriticalValue)).map
        (fun out => { sample with wells := out.1, grubbsCriticalValue := out.2 })

/-- The body of the `for (let sample of samples)` loop of the non-empty
branch of `updateSamples` (lines 450-466): recompute the sample's
aggregates from its current `inAverage` members and re-run `test`.
`wells[0].reagents` has no emptiness guard, so an empty member set
raises (in the source, after some aggregate fields were already
mutated; the partially mutated state is unobservable through the
throwing call and is not modelled). -/
def updateSampleStep (st : WellPlateData) (sample : PlateSample) :
    Except JsError PlateSample :=
  match st.getWells (some (evalIds sample)) with
  | [] => .error .undefinedAccess
  | w0 :: rest =>
    st.test { sample with
      analysis := some { raw := rawAnalysis (w0 :: rest)
                         averaged := averageAnalysis (w0 :: rest)
                         wells := (w0 :: rest).map (fun w => (w.id, w.analysis)) }
      averagedSpectra := averageArrays ((w0 :: rest).map (fun w => w.spectrum))
      averagedGrowthCurves := averageArrays ((w0 :: rest).map (fun w => w.growthCurve))
      reagents := w0.reagents }

/-- The samples created by the empty branch of `updateSamples`
(lines 425-447): one `PlateSample` per group of `getSamplesIDs`, label
the joined per-id label parts, members `{id, inAverage: true}`. -/
def initialSamples (wells : List Well) : List PlateSample :=
  (getSamplesIDs wells).mapIdx (fun i sampleIDs =>
    { id := sampleIdSupply i
      label := List.intercalate ['-']
        (sampleIDs.map (fun s => (s.splitOn '-').getD 1 (strL "undefined")))
      wells := sampleIDs.map (fun j => { id := j, inAverage := true })
      metadata := { color := strL "blue", display := true } })

/-- `updateSamples` (lines 424-468): with no samples yet, partition the
wells into fresh samples; otherwise update every existing sample in
place. -/
def WellPlateData.updateSamples (st : WellPlateData) : Except JsError WellPlateData :=
  if st.samples.isEmpty then
    .ok { st with samples := initialSamples st.wells }
  else
    (st.samples.mapM (fun s => updateSampleStep st s)).map
      (fun samples2 => { st with samples := samples2 })

/-- `addReagentsFromArray` (lines 53-63): throws the length-mismatch
error before touching any well unless the input length equals the well
count; otherwise assigns element i to well i and recomputes. -/
def WellPlateData.addReagentsFromArray (st : WellPlateData)
    (reagents : List (List Reagent)) : Except JsError WellPlateData :=
  if st.wells.length ≠ reagents.length then .error .lengthMismatch
  else WellPlateData.updateSamples
    { st with wells := st.wells.zipWith Well.addReagents reagents }

/-- An element of the curve-loader inputs: `{label, array: {x, y}}`. -/
structure CurveEntry where
  label : List Char
  array : Curve
deriving DecidableEq

/-- The body of the `for (let well of this.wells)` loop of
`addSpectrumFromArray` (lines 83-93): the first entry whose label
matches stores its curve with color black; no match marks the well dark
grey; both branches clear `display`. -/
def spectrumWellUpdate (spectra : List CurveEntry) (w : Well) : Well :=
  match (spectra.filter (fun e => e.label = w.label)).head? with
  | some e =>
    { w with metadata := { w.metadata with display := false, color := strL "black" }
             spectrum := e.array }
  | none =>
    { w with metadata := { w.metadata with display := false, color := strL "darkgrey" } }

/-- The loop body of `addGrowthCurvesFromArray` (lines 116-128). -/
def growthCurveWellUpdate (growthCurves : List CurveEntry) (w : Well) : Well :=
  match (growthCurves.filter (fun e => e.label = w.label)).head? with
  | some e =>
    { w with metadata := { w.metadata with display := false, color := strL "black" }
             growthCurve := e.array }
  | none =>
    { w with metadata := { w.metadata with display := false, color := strL "darkgrey" } }

/-- `addSpectrumFromArray` (lines 69-95). Only `spectra[0]` is shape-
checked (an empty list raises a `TypeError` at `spectra[0].array`);
every well is then matched against the entries by label and samples are
recomputed. -/
def WellPlateData.addSpectrumFromArray (st : WellPlateData) (spectra : List CurveEntry) :
    Except JsError WellPlateData :=
  match spectra with
  | [] => .error .undefinedAccess
  | e0 :: _ =>
    if e0.array.y.length ≠ e0.array.x.length then .error .badShape
    else
      WellPlateData.updateSamples
        { st with wells := st.wells.map (spectrumWellUpdate spectra) }

/-- `addGrowthCurvesFromArray` (lines 101-130): same structure as the
spectrum loader, storing into `growthCurve`. -/
def WellPlateData.addGrowthCurvesFromArray (st : WellPlateData)
    (growthCurves : List CurveEntry) : Except JsError WellPlateData :=
  match growthCurves with
  | [] => .error .undefinedAccess
  | e0 :: _ =>
    if e0.array.y.length ≠ e0.array.x.length then .error .badShape
    else
      WellPlateData.updateSamples
        { st with wells := st.wells.map (growthCurveWellUpdate growthCurves) }

/-- `addAnalysisFromArray` (lines 136-143): assigns element i to well i.
It is the one well-mutating entry point that does NOT call
`updateSamples` before returning (the `Array.isArray` guard is vacuous
here since the model's input is always a list). -/
def WellPlateData.addAnalysisFromArray (st : WellPlateData)
    (analysis : List WellAnalysis) : WellPlateData :=
  { st with wells := st.wells.mapIdx (fun i w => w.addAnalysis (analysis.get? i)) }

/-- `getWellsPositions` (lines 505-510): the 1-based row and the column
of a numeric label under a fixed column count (JavaScript `Math.floor`
on the coerced string is floor division over ℤ). -/
def getWellsPositions (label : ℤ) (columns : ℤ := 10) : List ℤ :=
  let nbRow := (label - 1).fdiv columns
  [nbRow + 1, label - columns * nbRow]

/-- The header cell of one reagent: `label(unit)` (lines 182-184). -/
def reagentHeaderCell (r : Reagent) : List Char :=
  r.label ++ '(' :: (r.unit ++ [')'])

/-- One data row of the template (lines 188-194): the label split into
its position — `getWellsPositions` when `parseInt` does not yield `NaN`,
the letter/digit runs of the regex otherwise — followed by the well's
concentrations. A label that merely starts with a digit without being
fully numeric makes the source compute `NaN` positions; the model uses
a 0 placeholder there and no claim below evaluates that case. -/
def wellTemplateRow (w : Well) : List (List Char) :=
  (if (parseIntPrefix w.label).isSome then
    (getWellsPositions (((charsToNat? w.label).getD 0 : ℕ) : ℤ)).map intToChars
  else regexRuns w.label)
  ++ w.reagents.map (fun r => printDecimal r.concentration)

/-- The `list` of rows `getTemplate` builds before joining
(lines 186-194): the header `row, column, label(unit)...` from
`plate[0]` (an empty plate raises), then one row per well. -/
def WellPlateData.templateRows (st : WellPlateData) :
    Except JsError (List (List (List Char))) :=
  match st.wells with
  | [] => .error .undefinedAccess
  | w0 :: _ =>
    .ok ((strL "row" :: strL "column" :: w0.reagents.map reagentHeaderCell)
      :: st.wells.map wellTemplateRow)

/-- `getTemplate` (lines 175-196): the rows joined by the separator and
by newlines. -/
def WellPlateData.getTemplate (st : WellPlateData) (sep : Char := ',') :
    Except JsError (List Char) :=
  st.templateRows.map (fun rows =>
    List.intercalate ['\n'] (rows.map (fun row => List.intercalate [sep] row)))

/-- The regex `/\(([^)]+)\)/.exec(cell)` of `readTemplate`
(lines 373, 389): the first position at which `(` is followed by a
non-empty run of non-`)` characters and then `)` yields that run;
`none` models a `null` match (reading `[1]` of it raises). -/
def execUnit : List Char → Option (List Char)
  | [] => none
  | c :: rest =>
    if c = '(' then
      let u := rest.takeWhile (fun d => !(d = ')'))
      if !u.isEmpty && ((rest.dropWhile (fun d => !(d = ')'))).head? = some ')') then some u
      else execUnit rest
    else execUnit rest

/-- One parsed reagent of a data row: header label up to `(`, unit from
the regex, `parseFloat` of the cell (a `NaN` from a missing or
non-numeric cell is represented as 0; no claim below evaluates it). -/
def parseHeaderReagent (cell : List Char) (conc : ℚ) : Except JsError Reagent :=
  match execUnit cell with
  | some u => .ok { label := (cell.splitOn '(').getD 0 [], unit := u, concentration := conc }
  | none => .error .undefinedAccess

/-- A well record accumulated by `readTemplate` before the update loop. -/
structure TemplateRec where
  id : List Char
  reagents : List Reagent
deriving DecidableEq

/-- The id `readTemplate` builds for one data row: numeric layout
composes `1-${(row-1)*10+column}` (a failed parse propagates `NaN` into
the template string), alphanumeric layout concatenates the first two
cells (a missing cell stringifies as `undefined`). -/
def templateRowId (numeric : Bool) (row : List (List Char)) : List Char :=
  if numeric then
    match parseIntPrefix (row.getD 0 (strL "undefined")),
        parseIntPrefix (row.getD 1 (strL "undefined")) with
    | some a, some b => strL "1-" ++ intToChars ((a - 1) * 10 + b)
    | _, _ => strL "1-NaN"
  else strL "1-" ++ row.getD 0 (strL "undefined") ++ row.getD 1 (strL "undefined")

/-- `Modelled from the spec:` `generatePlateLabels` and `setTypeOfPlate`
(§4.1, not under src/), restricted to the two configurations
`readTemplate` constructs: `{nbRows: 10, nbColumns: 10}` yields the
numeric single-plate labels `1-1 .. 1-100`, and
`{nbRows: 'H', nbColumns: 12}` yields the alphanumeric single-plate
labels `1-A1 .. 1-H12`. -/
def numericLabels10x10 : List (List Char) :=
  (List.range 100).map (fun i => strL "1-" ++ natToChars (i + 1))

/-- The alphanumeric labels of the assumed 8×12 plate (rows A–H,
columns 1–12). -/
def alphaLabels8x12 : List (List Char) :=
  (strL "ABCDEFGH").flatMap (fun row =>
    (List.range 12).map (fun j => strL "1-" ++ row :: natToChars (j + 1)))

/-- The constructor (lines 30-47): one well per generated label, id the
full label, plate and positional label its two `-`-separated parts. -/
def wellPlateDataNew (labelsList : List (List Char)) (typeOfPlate : List Char) :
    WellPlateData :=
  { wells := labelsList.map (fun s =>
      { id := s
        plate := (s.splitOn '-').getD 0 (strL "undefined")
        label := (s.splitOn '-').getD 1 (strL "undefined") })
    samples := []
    typeOfPlate := typeOfPlate }

/-- `selectedWell.updateReagents` on the first well with the record's id
(lines 396-399); no such well means `getWell` gave `undefined` and the
method call raises. -/
def applyTemplateRec : List Well → TemplateRec → Except JsError (List Well)
  | [], _ => .error .undefinedAccess
  | w :: ws, rec =>
    if rec.id = w.id then .ok (w.updateReagents rec.reagents :: ws)
    else (applyTemplateRec ws rec).map (fun ws2 => w :: ws2)

/-- The layout detection of `readTemplate` (lines 358-361): numeric
when the first two cells of the first data row `parseInt` to integers
(`Number.isInteger(NaN)` is false). -/
def templateNumericDetect (row1 : List (List Char)) : Bool :=
  (parseIntPrefix (row1.getD 0 (strL "undefined"))).isSome
    && (parseIntPrefix (row1.getD 1 (strL "undefined"))).isSome

/-- The freshly constructed plate `readTemplate` fills: the assumed
10×10 numeric plate or the assumed 8×12 alphanumeric plate
(lines 362, 380). -/
def templateBase (numeric : Bool) : WellPlateData :=
  if numeric then wellPlateDataNew numericLabels10x10 (strL "10x10")
  else wellPlateDataNew alphaLabels8x12 (strL "8x12")

/-- One data row turned into a well record (lines 363-394): the id for
the detected layout, and one reagent per header column from index 2 on. -/
def templateRowRec (numeric : Bool) (header : List (List Char))
    (row : List (List Char)) : Except JsError TemplateRec :=
  (((List.range header.length).drop 2).mapM (fun j =>
    parseHeaderReagent (header.getD j (strL "undefined"))
      ((parseFloatChars (row.getD j (strL "undefined"))).getD 0))).map
    (fun rs => { id := templateRowId numeric row, reagents := rs })

/-- The body of `readTemplate` (lines 356-401) after the text has been
split into its `list` of rows of cells: fewer than two rows raises at
`list[1][0]`; each data row becomes a record whose reagents come from
the header cells; the records are applied to the corresponding wells of
the assumed base plate and samples are recomputed. -/
def readTemplateFromList (list : List (List (List Char))) :
    Except JsError WellPlateData :=
  match list.get? 1 with
  | none => .error .undefinedAccess
  | some row1 =>
    ((list.drop 1).mapM
      (templateRowRec (templateNumericDetect row1) (list.getD 0 []))).bind
      (fun recs =>
        (recs.foldlM applyTemplateRec (templateBase (templateNumericDetect row1)).wells).bind
          (fun finalWells =>
            WellPlateData.updateSamples
              { templateBase (templateNumericDetect row1) with wells := finalWells }))

/-- `readTemplate` (lines 350-402): splits the text into rows by
newline and cells by the separator (the source's
`.filter((item) => item !== '')` compares an array against a string and
never removes anything, so it is not modelled) and processes the
resulting list. -/
def WellPlateData.readTemplate (text : List Char) (sep : Char := ',') :
    Except JsError WellPlateData :=
  readTemplateFromList ((text.splitOn '\n').map (fun row => row.splitOn sep))

instance exceptDecEq {ε α : Type} [DecidableEq ε] [DecidableEq α] : DecidableEq (Except ε α)
  | .ok a, .ok b =>
    if h : a = b then .isTrue (by rw [h]) else .isFalse (by intro hc; cases hc; exact h rfl)
  | .ok _, .error _ => .isFalse (fun hc => Except.noConfusion hc)
  | .error _, .ok _ => .isFalse (fun hc => Except.noConfusion hc)
  | .error e, .error f =>
    if h : e = f then .isTrue (by rw [h]) else .isFalse (by intro hc; cases hc; exact h rfl)

/-- A reagent fixture for concrete counterexamples and witnesses. -/
def exReagentA : Reagent := ⟨strL "glu", strL "mM", Rat.divInt 3 2⟩

/-- A second reagent fixture with a different concentration. -/
def exReagentB : Reagent := ⟨strL "glu", strL "mM", Rat.divInt 5 2⟩

/-- A numeric-label well fixture. -/
def exWellN1 : Well :=
  { id := strL "1-1", plate := strL "1", label := strL "1", reagents := [exReagentA] }

/-- A second numeric-label well fixture. -/
def exWellN12 : Well :=
  { id := strL "1-12", plate := strL "1", label := strL "12", reagents := [exReagentB] }

/-- A two-well numeric plate fixture. -/
def exPlateNum : WellPlateData := ⟨[exWellN1, exWellN12], [], strL "10x10"⟩

/-- An alphanumeric well fixture. -/
def exWellA1 : Well :=
  { id := strL "1-A1", plate := strL "1", label := strL "A1", reagents := [exReagentA] }

/-- An alphanumeric well fixture on a second plate index. -/
def exWellB12 : Well :=
  { id := strL "2-B12", plate := strL "2", label := strL "B12", reagents := [exReagentB] }

/-- A two-well alphanumeric plate fixture. -/
def exPlateAlpha : WellPlateData := ⟨[exWellA1, exWellB12], [], strL "8x12"⟩

/-- A well whose numeric label 101 lies outside the 10×10 layout
`readTemplate` assumes. -/
def exWell101 : Well :=
  { id := strL "1-101", plate := strL "1", label := strL "101", reagents := [exReagentA] }

/-- A plate whose only well has label 101. -/
def exPlate101 : WellPlateData := ⟨[exWell101], [], strL "10x10"⟩

/-- A sample none of whose members is flagged `inAverage`. -/
def exSampleAllOut : PlateSample :=
  { id := strL "s", label := strL "1", wells := [⟨strL "1-1", false, []⟩] }

/-- A plate holding `exSampleAllOut`. -/
def exPlateAllOut : WellPlateData := ⟨[exWellN1], [exSampleAllOut], strL "10x10"⟩

/-- First member well of the replicate group of label 7. -/
def exWellC8a : Well :=
  { id := strL "1-7", plate := strL "1", label := strL "7", reagents := [exReagentA]
    analysis := { processed := [(strL "m", 1)] } }

/-- Second member well of the group, with different reagents. -/
def exWellC8b : Well :=
  { id := strL "2-7", plate := strL "2", label := strL "7", reagents := [exReagentB]
    analysis := { processed := [(strL "m", 2)] } }

/-- A sample whose first member is excluded from the average. -/
def exSampleC8 : PlateSample :=
  { id := strL "s", label := strL "7"
    wells := [⟨strL "1-7", false, []⟩, ⟨strL "2-7", true, []⟩] }

/-- A plate holding `exSampleC8`. -/
def exPlateC8 : WellPlateData := ⟨[exWellC8a, exWellC8b], [exSampleC8], strL "10x10"⟩

/-- A well-formed curve entry. -/
def exGood : CurveEntry := ⟨strL "1", ⟨[1, 2], [3, 4]⟩⟩

/-- A malformed curve entry: x and y lengths differ. -/
def exBad : CurveEntry := ⟨strL "12", ⟨[1], []⟩⟩

/-- The i-th of three replicate wells with metric `m` equal to i. -/
def exWell3 (i : ℕ) : Well :=
  { id := strL "1-" ++ natToChars (i + 1), plate := strL "1", label := natToChars (i + 1)
    reagents := [exReagentA], analysis := { processed := [(strL "m", (i : ℚ))] } }

/-- A three-member sample, all members in the average (n = 3 is inside
the Grubbs table range). -/
def exSample3 : PlateSample :=
  { id := strL "s3", label := strL "x"
    wells := (List.range 3).map (fun i => ⟨strL "1-" ++ natToChars (i + 1), true, []⟩) }

/-- A plate holding `exSample3`. -/
def exPlate3 : WellPlateData := ⟨(List.range 3).map exWell3, [exSample3], strL "10x10"⟩

/-- A four-member sample whose first member is excluded (`inAverage`
false) while the other three are evaluated. -/
def exSample4 : PlateSample :=
  { id := strL "s4", label := strL "x"
    wells := ⟨strL "1-1", false, []⟩
      :: (List.range 3).map (fun i => ⟨strL "1-" ++ natToChars (i + 2), true, []⟩) }

/-- A plate of four replicate wells holding `exSample4`. -/
def exPlate4 : WellPlateData := ⟨(List.range 4).map exWell3, [exSample4], strL "10x10"⟩

/-- A well with the numeric label 57 for the position witness. -/
def exWell57 : Well :=
  { id := strL "1-57", plate := strL "1", label := strL "57", reagents := [exReagentA] }

/-- The conditions on a reagent under which its header cell
`label(unit)` is unambiguous in the template text: the label is free of
the opening parenthesis that delimits the unit and of the separator and
newline, and the unit is non-empty and free of both parentheses, the
separator and newline. -/
def HeaderSafe (r : Reagent) : Prop :=
  (∀ c ∈ r.label, c ≠ '(' ∧ c ≠ ',' ∧ c ≠ '\n') ∧
  r.unit ≠ [] ∧ (∀ c ∈ r.unit, c ≠ '(' ∧ c ≠ ')' ∧ c ≠ ',' ∧ c ≠ '\n')

instance (r : Reagent) : Decidable (HeaderSafe r) := by
  unfold HeaderSafe
  infer_instance

/-- A plate whose labels all fit the numeric 10×10 layout `readTemplate`
assumes. -/
def NumericLabels (st : WellPlateData) : Prop :=
  ∀ w ∈ st.wells, ∃ L : ℕ, 1 ≤ L ∧ L ≤ 100 ∧ w.label = natToChars L

/-- A plate whose labels all fit the alphanumeric 8×12 layout
`readTemplate` assumes. -/
def AlphaLabels (st : WellPlateData) : Prop :=
  ∀ w ∈ st.wells, ∃ c : Char, ∃ n : ℕ,
    c ∈ strL "ABCDEFGH" ∧ 1 ≤ n ∧ n ≤ 12 ∧ w.label = c :: natToChars n

theorem digitsRev_eq : ∀ (fuel n : ℕ), n ≤ fuel → digitsRev fuel n = Nat.digits 10 n := by
  intro fuel
  induction fuel with
  | zero =>
    intro n hn
    interval_cases n
    simp [digitsRev]
  | succ f ih =>
    intro n hn
    by_cases h0 : n = 0
    · subst h0
      simp [digitsRev]
    · rw [digitsRev, if_neg h0, Nat.digits_def' (by norm_num) (Nat.pos_of_ne_zero h0)]
      rw [ih (n / 10) (by omega)]

theorem natToChars_eq_digits (n : ℕ) :
    natToChars n = if n = 0 then ['0'] else ((Nat.digits 10 n).map digitToChar).reverse := by
  unfold natToChars
  rw [digitsRev_eq n n (Nat.le_refl n)]

theorem qadd_eq (a b : ℚ) : qadd a b = a + b := by
  unfold qadd
  rw [Rat.divInt_eq_div]
  have ha : (a.den : ℚ) ≠ 0 := Nat.cast_ne_zero.mpr a.den_nz
  have hb : (b.den : ℚ) ≠ 0 := Nat.cast_ne_zero.mpr b.den_nz
  conv_rhs => rw [← Rat.num_div_den a, ← Rat.num_div_den b]
  rw [div_add_div _ _ ha hb]
  push_cast
  ring_nf

theorem qsub_eq (a b : ℚ) : qsub a b = a - b := by
  unfold qsub
  rw [Rat.divInt_eq_div]
  have ha : (a.den : ℚ) ≠ 0 := Nat.cast_ne_zero.mpr a.den_nz
  have hb : (b.den : ℚ) ≠ 0 := Nat.cast_ne_zero.mpr b.den_nz
  conv_rhs => rw [← Rat.num_div_den a, ← Rat.num_div_den b]
  rw [div_sub_div _ _ ha hb]
  push_cast
  ring_nf

theorem qmul_eq (a b : ℚ) : qmul a b = a * b := by
  unfold qmul
  rw [Rat.divInt_eq_div]
  have ha : (a.den : ℚ) ≠ 0 := Nat.cast_ne_zero.mpr a.den_nz
  have hb : (b.den : ℚ) ≠ 0 := Nat.cast_ne_zero.mpr b.den_nz
  conv_rhs => rw [← Rat.num_div_den a, ← Rat.num_div_den b]
  rw [div_mul_div_comm]
  push_cast
  ring_nf

theorem qdiv_eq (a b : ℚ) : qdiv a b = a / b := by
  unfold qdiv
  by_cases hb : b = 0
  · subst hb
    simp [Rat.divInt_eq_div]
  · rw [Rat.divInt_eq_div]
    have ha : (a.den : ℚ) ≠ 0 := Nat.cast_ne_zero.mpr a.den_nz
    have hbd : (b.den : ℚ) ≠ 0 := Nat.cast_ne_zero.mpr b.den_nz
    have hbn : (b.num : ℚ) ≠ 0 := by
      simpa using Rat.num_ne_zero.mpr hb
    conv_rhs => rw [← Rat.num_div_den a, ← Rat.num_div_den b]
    push_cast
    field_simp

theorem qsum_eq (l : List ℚ) : qsum l = l.sum := by
  unfold qsum
  induction l with
  | nil => simp
  | cons x xs ih => simp [qadd_eq, ih]

theorem qpow_eq (a : ℚ) (n : ℕ) : qpow a n = a ^ n := by
  induction n with
  | zero => rfl
  | succ k ih => rw [qpow, qmul_eq, ih, pow_succ]; ring

theorem qscale_eq (q : ℚ) (k : ℕ) : qmul q (qpow 10 k) = q * 10 ^ k := by
  rw [qmul_eq, qpow_eq]

theorem charVal_digitToChar {d : ℕ} (hd : d < 10) : charVal (digitToChar d) = d := by
  interval_cases d <;> decide

theorem isDigitC_digitToChar (d : ℕ) : isDigitC (digitToChar d) = true := by
  unfold digitToChar
  split <;> decide

theorem charsAsNat_foldl (init : ℕ) (l : List Char) :
    l.foldl (fun a c => a * 10 + charVal c) init =
      init * 10 ^ l.length + charsAsNat l := by
  induction l generalizing init with
  | nil => simp [charsAsNat]
  | cons c cs ih =>
    simp only [List.foldl_cons, charsAsNat]
    rw [ih, ih (0 * 10 + charVal c)]
    simp only [List.length_cons, pow_succ]
    ring

theorem charsAsNat_append (a b : List Char) :
    charsAsNat (a ++ b) = charsAsNat a * 10 ^ b.length + charsAsNat b := by
  unfold charsAsNat
  rw [List.foldl_append, charsAsNat_foldl]
  rfl

theorem charsAsNat_replicate_zero (r : ℕ) :
    charsAsNat (List.replicate r '0') = 0 := by
  induction r with
  | zero => rfl
  | succ n ih =>
    rw [List.replicate_succ]
    show charsAsNat ([ '0' ] ++ List.replicate n '0') = 0
    rw [charsAsNat_append, ih]
    simp [charsAsNat, charVal]

theorem charsAsNat_digitList (ds : List ℕ) (h : ∀ d ∈ ds, d < 10) :
    charsAsNat ((ds.map digitToChar).reverse) = Nat.ofDigits 10 ds := by
  induction ds with
  | nil => rfl
  | cons d rest ih =>
    simp only [List.map_cons, List.reverse_cons]
    rw [charsAsNat_append, ih (fun x hx => h x (List.mem_cons_of_mem _ hx))]
    have hv : charsAsNat [digitToChar d] = d := by
      show 0 * 10 + charVal (digitToChar d) = d
      rw [charVal_digitToChar (h d (List.mem_cons_self _ _))]
      omega
    rw [hv, Nat.ofDigits_cons]
    simp [Nat.pow_succ]
    ring

theorem charsAsNat_natToChars (n : ℕ) : charsAsNat (natToChars n) = n := by
  rw [natToChars_eq_digits]
  split
  · simp_all [charsAsNat, charVal]
  · rw [charsAsNat_digitList _ (fun d hd => Nat.digits_lt_base (by norm_num) hd)]
    exact Nat.ofDigits_digits 10 n

theorem natToChars_ne_nil (n : ℕ) : natToChars n ≠ [] := by
  rw [natToChars_eq_digits]
  split
  · simp
  · simp only [ne_eq, List.reverse_eq_nil_iff, List.map_eq_nil_iff]
    exact Nat.digits_ne_nil_iff_ne_zero.mpr (by assumption)

theorem natToChars_all_digits (n : ℕ) : ∀ c ∈ natToChars n, isDigitC c = true := by
  intro c hc
  rw [natToChars_eq_digits] at hc
  split at hc
  · simp at hc
    subst hc
    decide
  · rw [List.mem_reverse, List.mem_map] at hc
    obtain ⟨d, _, hd⟩ := hc
    rw [← hd]
    exact isDigitC_digitToChar d

theorem takeWhile_append_all {p : Char → Bool} {a : List Char} (b : List Char)
    (h : ∀ x ∈ a, p x = true) :
    (a ++ b).takeWhile p = a ++ b.takeWhile p := by
  induction a with
  | nil => simp
  | cons x xs ih =>
    simp only [List.cons_append, List.takeWhile_cons, h x (List.mem_cons_self _ _),
      if_true]
    rw [ih (fun y hy => h y (List.mem_cons_of_mem _ hy))]

theorem dropWhile_append_all {p : Char → Bool} {a : List Char} (b : List Char)
    (h : ∀ x ∈ a, p x = true) :
    (a ++ b).dropWhile p = b.dropWhile p := by
  induction a with
  | nil => simp
  | cons x xs ih =>
    simp only [List.cons_append, List.dropWhile_cons, h x (List.mem_cons_self _ _),
      if_true]
    exact ih (fun y hy => h y (List.mem_cons_of_mem _ hy))

theorem takeWhile_all {p : Char → Bool} {a : List Char} (h : ∀ x ∈ a, p x = true) :
    a.takeWhile p = a := by
  have := takeWhile_append_all (p := p) (a := a) [] h
  simpa using this

theorem dropWhile_all {p : Char → Bool} {a : List Char} (h : ∀ x ∈ a, p x = true) :
    a.dropWhile p = [] := by
  have := dropWhile_append_all (p := p) (a := a) [] h
  simpa using this

theorem stripSign_digit {c : Char} (h : isDigitC c = true) (l : List Char) :
    stripSign (c :: l) = (false, c :: l) := by
  have h1 : c ≠ '-' := by rintro rfl; exact absurd h (by decide)
  have h2 : c ≠ '+' := by rintro rfl; exact absurd h (by decide)
  simp [stripSign, h1, h2]

/-- Parsing the digit string of `n`, with a decimal point inserted `k`
places from the right, recovers `n / 10 ^ k`. -/
theorem parseFloatCore_pointed {k : ℕ} {ds : List Char}
    (hall : ∀ c ∈ ds, isDigitC c = true) (hlen : k < ds.length) :
    parseFloatCore
        (if k = 0 then ds else ds.take (ds.length - k) ++ '.' :: ds.drop (ds.length - k))
      = some ((charsAsNat ds : ℚ) / 10 ^ k) := by
  by_cases hk : k = 0
  · subst hk
    simp only [if_true]
    have hne : ds ≠ [] := by
      intro hnil; rw [hnil] at hlen; simp at hlen
    unfold parseFloatCore
    rw [takeWhile_all hall, dropWhile_all hall]
    simp only [List.isEmpty_nil]
    rw [if_neg (by simp [List.isEmpty_iff, hne])]
    rw [qadd_eq, qdiv_eq, qpow_eq]
    simp [charsAsNat]
  · rw [if_neg hk]
    set A := ds.take (ds.length - k) with hA
    set B := ds.drop (ds.length - k) with hB
    have hAall : ∀ c ∈ A, isDigitC c = true := fun c hc => hall c (List.take_subset _ _ hc)
    have hBall : ∀ c ∈ B, isDigitC c = true := fun c hc => hall c (List.drop_subset _ _ hc)
    have hAne : A ≠ [] := by
      rw [hA, ← List.length_pos_iff_ne_nil, List.length_take]
      omega
    have hBlen : B.length = k := by
      rw [hB, List.length_drop]
      omega
    unfold parseFloatCore
    rw [takeWhile_append_all _ hAall, dropWhile_append_all _ hAall]
    have hTB : ('.' :: B).takeWhile isDigitC = [] := by
      simp [List.takeWhile_cons, isDigitC]
    have hDB : ('.' :: B).dropWhile isDigitC = '.' :: B := by
      simp [List.dropWhile_cons, isDigitC]
    rw [hTB, hDB]
    simp only [List.append_nil]
    rw [if_neg (by simp [List.isEmpty_iff, hAne])]
    rw [takeWhile_all hBall]
    have hsum : (charsAsNat A : ℚ) * 10 ^ k + charsAsNat B = charsAsNat ds := by
      have h0 : charsAsNat (A ++ B) = charsAsNat A * 10 ^ B.length + charsAsNat B :=
        charsAsNat_append A B
      rw [hBlen] at h0
      rw [hA, hB, List.take_append_drop] at h0
      exact_mod_cast h0.symm
    rw [hBlen, qadd_eq, qdiv_eq, qpow_eq]
    congr 1
    have h10 : (10 : ℚ) ^ k ≠ 0 := by positivity
    field_simp
    linarith [hsum]

/-- Printing a finite-decimal rational and parsing it back is exact. -/
theorem parseFloatChars_printDecimal {q : ℚ} (h : IsDec q) :
    parseFloatChars (printDecimal q) = some q := by
  have hden : (qmul q (qpow 10 (decExp q))).den = 1 := by
    obtain ⟨k, hk, hkden⟩ := h
    have hex : ∃ x ∈ List.range 400, ((qmul q (qpow 10 x)).den == 1) = true :=
      ⟨k, List.mem_range.mpr hk, by simp [hkden]⟩
    rw [← List.find?_isSome] at hex
    obtain ⟨k₀, hk₀⟩ := Option.isSome_iff_exists.mp hex
    unfold decExp
    rw [hk₀]
    simpa using List.find?_some hk₀
  set k := decExp q with hkdef
  set m := (qmul q (qpow 10 k)).num with hmdef
  have hden2 : (q * 10 ^ k).den = 1 := by rw [← qscale_eq]; exact hden
  have hq : (m : ℚ) = q * 10 ^ k := by
    have hiff := (Rat.den_eq_one_iff _).mp hden2
    rw [hmdef, qscale_eq]
    exact hiff
  have h10 : (10 : ℚ) ^ k ≠ 0 := by positivity
  have hqval : q = (m : ℚ) / 10 ^ k := by
    rw [hq]; field_simp
  set ds0 := natToChars m.natAbs with hds0
  have hds0ne : ds0 ≠ [] := natToChars_ne_nil _
  have hds0all : ∀ c ∈ ds0, isDigitC c = true := natToChars_all_digits _
  set ds : List Char :=
    if ds0.length ≤ k then List.replicate (k + 1 - ds0.length) '0' ++ ds0 else ds0 with hds
  have hdall : ∀ c ∈ ds, isDigitC c = true := by
    rw [hds]
    split
    · intro c hc
      rcases List.mem_append.mp hc with hc | hc
      · rw [List.eq_of_mem_replicate hc]; decide
      · exact hds0all c hc
    · exact hds0all
  have hdlen : k < ds.length := by
    rw [hds]
    split
    · rw [List.length_append, List.length_replicate]
      have : ds0.length ≠ 0 := by
        simpa [List.length_eq_zero] using hds0ne
      omega
    · omega
  have hdval : charsAsNat ds = m.natAbs := by
    rw [hds]
    split
    · rw [charsAsNat_append, charsAsNat_replicate_zero]
      simp [hds0, charsAsNat_natToChars]
    · simp [hds0, charsAsNat_natToChars]
  have hcore :
      parseFloatCore
          (if k = 0 then ds else ds.take (ds.length - k) ++ '.' :: ds.drop (ds.length - k))
        = some ((m.natAbs : ℚ) / 10 ^ k) := by
    rw [parseFloatCore_pointed hdall hdlen, hdval]
  set body : List Char :=
    if k = 0 then ds else ds.take (ds.length - k) ++ '.' :: ds.drop (ds.length - k) with hbody
  have hbodyhead : ∃ c rest, body = c :: rest ∧ isDigitC c = true := by
    rw [hbody]
    split
    · cases hd : ds with
      | nil =>
        exfalso
        rw [hd] at hdlen
        simp at hdlen
      | cons c rest =>
        exact ⟨c, rest, rfl, hdall c (hd ▸ List.mem_cons_self _ _)⟩
    · cases hA : ds.take (ds.length - k) with
      | nil =>
        exfalso
        have hl : (ds.take (ds.length - k)).length = ds.length - k := by
          rw [List.length_take]; omega
        rw [hA] at hl
        simp at hl
        omega
      | cons c rest =>
        refine ⟨c, rest ++ '.' :: ds.drop (ds.length - k), by simp, ?_⟩
        exact hdall c (List.take_subset _ _ (hA ▸ List.mem_cons_self _ _))
  obtain ⟨c, rest, hbodyeq, hcdig⟩ := hbodyhead
  have hprint : printDecimal q = if m < 0 then '-' :: body else body := rfl
  rw [hprint]
  by_cases hm : m < 0
  · rw [if_pos hm]
    unfold parseFloatChars
    have hss : stripSign ('-' :: body) = (true, body) := by simp [stripSign]
    rw [hss]
    have hna : (m.natAbs : ℚ) = -(m : ℚ) := by
      have hz : (m.natAbs : ℤ) = -m := by omega
      calc (m.natAbs : ℚ) = ((m.natAbs : ℤ) : ℚ) := (Int.cast_natCast _).symm
        _ = ((-m : ℤ) : ℚ) := by rw [hz]
        _ = -(m : ℚ) := by push_cast; ring
    simp [hcore, hna, hqval]
    ring
  · rw [if_neg hm]
    unfold parseFloatChars
    rw [hbodyeq, stripSign_digit hcdig]
    have hna : (m.natAbs : ℚ) = (m : ℚ) := by
      have hz : (m.natAbs : ℤ) = m := by omega
      calc (m.natAbs : ℚ) = ((m.natAbs : ℤ) : ℚ) := (Int.cast_natCast _).symm
        _ = ((m : ℤ) : ℚ) := by rw [hz]
        _ = (m : ℚ) := by norm_num
    simp [← hbodyeq, hcore, hna, hqval]

theorem except_bind_ok {α β : Type} {x : Except JsError α} {f : α → Except JsError β}
    {b : β} (h : x.bind f = .ok b) : ∃ a, x = .ok a ∧ f a = .ok b := by
  cases x with
  | error e => simp [Except.bind] at h
  | ok a => exact ⟨a, rfl, by simpa [Except.bind] using h⟩

theorem except_mapM_ok {α β : Type} {f : α → Except JsError β} :
    ∀ {l : List α} {out : List β}, l.mapM f = .ok out →
      out.length = l.length ∧
      ∀ i (h1 : i < l.length) (h2 : i < out.length),
        f (l.get ⟨i, h1⟩) = .ok (out.get ⟨i, h2⟩) := by
  intro l
  induction l with
  | nil =>
    intro out h
    simp only [List.mapM_nil, pure, Except.pure, Except.ok.injEq] at h
    subst h
    exact ⟨rfl, fun i h1 h2 => by simp at h1⟩
  | cons x xs ih =>
    intro out h
    rw [List.mapM_cons] at h
    obtain ⟨y, hy, h⟩ := except_bind_ok h
    obtain ⟨ys, hys, h⟩ := except_bind_ok h
    simp only [pure, Except.pure, Except.ok.injEq] at h
    subst h
    obtain ⟨hlen, helt⟩ := ih hys
    refine ⟨by simp [hlen], fun i h1 h2 => ?_⟩
    cases i with
    | zero => simpa using hy
    | succ j =>
      simp only [List.get_cons_succ]
      exact helt j (by simpa using h1) (by simpa using h2)

theorem except_mapM_error {α β : Type} {f : α → Except JsError β} :
    ∀ {l : List α} {e : JsError}, l.mapM f = .error e → ∃ x ∈ l, f x = .error e := by
  intro l
  induction l with
  | nil =>
    intro e h
    simp only [List.mapM_nil, pure, Except.pure] at h
    exact Except.noConfusion h
  | cons x xs ih =>
    intro e h
    rw [List.mapM_cons] at h
    cases hfx : f x with
    | error e2 =>
      rw [hfx] at h
      simp only [Bind.bind, Except.bind, Except.error.injEq] at h
      subst h
      exact ⟨x, List.mem_cons_self _ _, hfx⟩
    | ok y =>
      rw [hfx] at h
      simp only [Bind.bind, Except.bind] at h
      cases hxs : xs.mapM f with
      | error e2 =>
        rw [hxs] at h
        simp only [Except.error.injEq] at h
        subst h
        obtain ⟨z, hz, hfz⟩ := ih hxs
        exact ⟨z, List.mem_cons_of_mem _ hz, hfz⟩
      | ok ys => rw [hxs] at h; simp [pure, Except.pure] at h

theorem except_mapM_total {α β : Type} {f : α → Except JsError β} :
    ∀ {l : List α}, (∀ x ∈ l, ∃ y, f x = .ok y) → ∃ out, l.mapM f = .ok out := by
  intro l
  induction l with
  | nil => intro _; exact ⟨[], rfl⟩
  | cons x xs ih =>
    intro hall
    obtain ⟨y, hy⟩ := hall x (List.mem_cons_self _ _)
    obtain ⟨ys, hys⟩ := ih (fun z hz => hall z (List.mem_cons_of_mem _ hz))
    exact ⟨y :: ys, by rw [List.mapM_cons, hy, hys]; rfl⟩

theorem except_foldlM_invariant {α β : Type} {f : β → α → Except JsError β}
    (P : β → Prop) :
    ∀ {l : List α} {b b' : β},
      (∀ b2 a b3, a ∈ l → P b2 → f b2 a = .ok b3 → P b3) →
      l.foldlM f b = .ok b' → P b → P b' := by
  intro l
  induction l with
  | nil =>
    intro b b' _ h hp
    simp only [List.foldlM_nil, pure, Except.pure, Except.ok.injEq] at h
    subst h
    exact hp
  | cons x xs ih =>
    intro b b' hstep h hp
    rw [List.foldlM_cons] at h
    obtain ⟨b2, hb2, h⟩ := except_bind_ok h
    exact ih (fun u a v ha => hstep u a v (List.mem_cons_of_mem _ ha)) h
      (hstep b x b2 (List.mem_cons_self _ _) hp hb2)

theorem except_map_ok {α β : Type} {x : Except JsError α} {f : α → β} {b : β}
    (h : x.map f = .ok b) : ∃ a, x = .ok a ∧ f a = b := by
  cases x with
  | error e => simp [Except.map] at h
  | ok a => exact ⟨a, rfl, by simpa [Except.map] using h⟩

theorem except_map_error {α β : Type} {x : Except JsError α} {f : α → β} {e : JsError}
    (h : x.map f = .error e) : x = .error e := by
  cases x <;> simp_all [Except.map]

theorem except_foldlM_error {α β : Type} {f : β → α → Except JsError β} :
    ∀ {l : List α} {b : β} {e : JsError},
      l.foldlM f b = .error e → ∃ b2 a, a ∈ l ∧ f b2 a = .error e := by
  intro l
  induction l with
  | nil => intro b e h; simp [List.foldlM_nil, pure, Except.pure] at h
  | cons x xs ih =>
    intro b e h
    rw [List.foldlM_cons] at h
    cases hfx : f b x with
    | error e2 =>
      rw [hfx] at h
      simp only [Bind.bind, Except.bind, Except.error.injEq] at h
      subst h
      exact ⟨b, x, List.mem_cons_self _ _, hfx⟩
    | ok b2 =>
      rw [hfx] at h
      simp only [Bind.bind, Except.bind] at h
      obtain ⟨b3, a, ha, hfa⟩ := ih h
      exact ⟨b3, a, List.mem_cons_of_mem _ ha, hfa⟩

theorem entryForRef_ok {st : WellPlateData} {ids : List (List Char)} {res : GrubbsResult}
    {key : List Char} {r : SampleWellRef} {e : TestEntry}
    (h : entryForRef st ids res key r = .ok e) :
    e.label = key ∧ e.criticalValue = none := by
  unfold entryForRef at h
  split at h
  · split at h
    · cases h; exact ⟨rfl, rfl⟩
    · exact Except.noConfusion h
  · split at h
    · cases h; exact ⟨rfl, rfl⟩
    · exact Except.noConfusion h

theorem entryForRef_error_kind {st : WellPlateData} {ids : List (List Char)}
    {res : GrubbsResult} {key : List Char} {r : SampleWellRef} {e2 : JsError}
    (h : entryForRef st ids res key r = .error e2) : e2 = .undefinedAccess := by
  unfold entryForRef at h
  split at h <;> split at h <;>
    first
    | exact Except.noConfusion h
    | (cases h; rfl)

theorem entryForRef_notin {st : WellPlateData} {ids : List (List Char)}
    {res : GrubbsResult} {key : List Char} {r : SampleWellRef} {well : Well}
    (hnot : r.id ∉ ids) (hw : st.getWell r.id = some well) :
    entryForRef st ids res key r = .ok (notEvalEntry well key) := by
  unfold entryForRef
  rw [if_neg (by simpa using hnot), hw]

theorem testKeyStep_ok {st : WellPlateData} {ids : List (List Char)} {wells : List Well}
    {key : List Char} {refs : List SampleWellRef} {out : List SampleWellRef × Option ℚ}
    (h : testKeyStep st ids wells key refs = .ok out) :
    out.2 = (grubbs (keyValues wells key)).criticalValue ∧
    out.1.length = refs.length ∧
    ∀ j (h1 : j < refs.length) (h2 : j < out.1.length),
      ∃ e, entryForRef st ids (grubbs (keyValues wells key)) key (refs.get ⟨j, h1⟩) = .ok e ∧
        out.1.get ⟨j, h2⟩
          = { refs.get ⟨j, h1⟩ with test := (refs.get ⟨j, h1⟩).test ++ [e] } := by
  unfold testKeyStep at h
  obtain ⟨refs2, hrefs2, hout⟩ := except_map_ok h
  obtain ⟨hlen, helt⟩ := except_mapM_ok hrefs2
  subst hout
  refine ⟨rfl, hlen, fun j h1 h2 => ?_⟩
  have hmem := helt j h1 h2
  obtain ⟨e, he, heq⟩ := except_map_ok hmem
  exact ⟨e, he, heq.symm⟩

theorem testKeyStep_error_kind {st : WellPlateData} {ids : List (List Char)}
    {wells : List Well} {key : List Char} {refs : List SampleWellRef} {e2 : JsError}
    (h : testKeyStep st ids wells key refs = .error e2) : e2 = .undefinedAccess := by
  unfold testKeyStep at h
  have hm := except_map_error h
  obtain ⟨r, _, hr⟩ := except_mapM_error hm
  exact entryForRef_error_kind (except_map_error hr)

theorem testFold_ok {st : WellPlateData} {ids : List (List Char)} {wells : List Well} :
    ∀ {keys : List (List Char)} {refs : List SampleWellRef} {c : Option ℚ}
      {out : List SampleWellRef × Option ℚ},
      keys.foldlM (fun acc key => testKeyStep st ids wells key acc.1) (refs, c) = .ok out →
      out.1.length = refs.length ∧
      ∀ j (h1 : j < refs.length) (h2 : j < out.1.length),
        (out.1.get ⟨j, h2⟩).id = (refs.get ⟨j, h1⟩).id ∧
        (out.1.get ⟨j, h2⟩).inAverage = (refs.get ⟨j, h1⟩).inAverage ∧
        ∃ es, (out.1.get ⟨j, h2⟩).test = (refs.get ⟨j, h1⟩).test ++ es ∧
          es.map TestEntry.label = keys ∧
          (∀ e ∈ es, e.criticalValue = none) ∧
          ∀ well, (refs.get ⟨j, h1⟩).id ∉ ids →
            st.getWell (refs.get ⟨j, h1⟩).id = some well →
            es = keys.map (notEvalEntry well) := by
  intro keys
  induction keys with
  | nil =>
    intro refs c out h
    simp only [List.foldlM_nil, pure, Except.pure, Except.ok.injEq] at h
    subst h
    exact ⟨rfl, fun j h1 h2 =>
      ⟨rfl, rfl, [], by simp, rfl, by simp, fun well _ _ => rfl⟩⟩
  | cons key rest ih =>
    intro refs c out h
    rw [List.foldlM_cons] at h
    obtain ⟨acc2, hstep, hrest⟩ := except_bind_ok h
    obtain ⟨refs2, c2⟩ := acc2
    obtain ⟨hcrit, hlen2, helt2⟩ := testKeyStep_ok hstep
    obtain ⟨hlen3, helt3⟩ := ih hrest
    simp only at hlen2 hlen3 helt2 helt3
    refine ⟨by rw [hlen3, hlen2], fun j h1 h2 => ?_⟩
    have hj2 : j < refs2.length := by rw [hlen2]; exact h1
    obtain ⟨e, he, heq⟩ := helt2 j h1 hj2
    obtain ⟨hid3, hin3, es2, htest3, hlab3, hcv3, hne3⟩ := helt3 j hj2 h2
    obtain ⟨heLab, hecv⟩ := entryForRef_ok he
    have hid2 : (refs2.get ⟨j, hj2⟩).id = (refs.get ⟨j, h1⟩).id := by rw [heq]
    have hin2 : (refs2.get ⟨j, hj2⟩).inAverage = (refs.get ⟨j, h1⟩).inAverage := by rw [heq]
    refine ⟨by rw [hid3, hid2], by rw [hin3, hin2], e :: es2, ?_, ?_, ?_, ?_⟩
    · rw [htest3, heq]
      simp
    · simp [hlab3, heLab]
    · intro e2 he2
      rcases List.mem_cons.mp he2 with he2 | he2
      · subst he2; exact hecv
      · exact hcv3 e2 he2
    · intro well hnot hw
      have hnot2 : (refs2.get ⟨j, hj2⟩).id ∉ ids := by rw [hid2]; exact hnot
      have hw2 : st.getWell (refs2.get ⟨j, hj2⟩).id = some well := by rw [hid2]; exact hw
      have hee : entryForRef st ids (grubbs (keyValues wells key)) key (refs.get ⟨j, h1⟩)
          = .ok (notEvalEntry well key) := entryForRef_notin hnot hw
      rw [he] at hee
      cases hee
      rw [hne3 well hnot2 hw2]
      simp

theorem test_ok {st : WellPlateData} {sample sample' : PlateSample}
    (h : st.test sample = .ok sample') :
    sample'.id = sample.id ∧ sample'.label = sample.label ∧
    sample'.reagents = sample.reagents ∧ sample'.analysis = sample.analysis ∧
    sample'.wells.length = sample.wells.length ∧
    ∀ j (h1 : j < sample.wells.length) (h2 : j < sample'.wells.length),
      (sample'.wells.get ⟨j, h2⟩).id = (sample.wells.get ⟨j, h1⟩).id ∧
      (sample'.wells.get ⟨j, h2⟩).inAverage = (sample.wells.get ⟨j, h1⟩).inAverage := by
  unfold WellPlateData.test at h
  split at h
  · exact Except.noConfusion h
  · split at h
    · cases h
      exact ⟨rfl, rfl, rfl, rfl, rfl, fun j h1 h2 => ⟨rfl, rfl⟩⟩
    · obtain ⟨out, hfold, hmap⟩ := except_map_ok h
      obtain ⟨hlen, helt⟩ := testFold_ok hfold
      subst hmap
      have hclen : (sample.wells.map
          (fun r => { r with test := ([] : List TestEntry) })).length
          = sample.wells.length := by simp
      refine ⟨rfl, rfl, rfl, rfl, by simpa [hclen] using hlen, fun j h1 h2 => ?_⟩
      have hjc : j < (sample.wells.map
          (fun r => { r with test := ([] : List TestEntry) })).length := by
        simpa [hclen] using h1
      obtain ⟨hid, hin, _⟩ := helt j hjc h2
      constructor
      · rw [hid]; simp
      · rw [hin]; simp

theorem test_error_kind {st : WellPlateData} {sample : PlateSample} {e : JsError}
    (h : st.test sample = .error e) : e = .undefinedAccess := by
  unfold WellPlateData.test at h
  split at h
  · cases h; rfl
  · split at h
    · exact Except.noConfusion h
    · obtain ⟨b2, a, _, hfa⟩ := except_foldlM_error (except_map_error h)
      exact testKeyStep_error_kind hfa

theorem updateSampleStep_ok {st : WellPlateData} {sample sample' : PlateSample}
    (h : updateSampleStep st sample = .ok sample') :
    ∃ w0 rest, st.getWells (some (evalIds sample)) = w0 :: rest ∧
      st.test { sample with
        analysis := some { raw := rawAnalysis (w0 :: rest)
                           averaged := averageAnalysis (w0 :: rest)
                           wells := (w0 :: rest).map (fun w => (w.id, w.analysis)) }
        averagedSpectra := averageArrays ((w0 :: rest).map (fun w => w.spectrum))
        averagedGrowthCurves := averageArrays ((w0 :: rest).map (fun w => w.growthCurve))
        reagents := w0.reagents } = .ok sample' := by
  unfold updateSampleStep at h
  split at h
  · exact Except.noConfusion h
  · rename_i w0 rest heq
    exact ⟨w0, rest, heq, h⟩

theorem updateSampleStep_error_kind {st : WellPlateData} {sample : PlateSample}
    {e : JsError} (h : updateSampleStep st sample = .error e) : e = .undefinedAccess := by
  unfold updateSampleStep at h
  split at h
  · cases h; rfl
  · exact test_error_kind h

theorem updateSamples_of_empty {st : WellPlateData} (h : st.samples = []) :
    st.updateSamples = .ok { st with samples := initialSamples st.wells } := by
  unfold WellPlateData.updateSamples
  rw [if_pos (by simp [h])]

theorem updateSamples_ok_elt {st st2 : WellPlateData} (hne : st.samples ≠ [])
    (h : st.updateSamples = .ok st2) :
    st2.wells = st.wells ∧ st2.samples.length = st.samples.length ∧
    ∀ i (h1 : i < st.samples.length) (h2 : i < st2.samples.length),
      updateSampleStep st (st.samples.get ⟨i, h1⟩) = .ok (st2.samples.get ⟨i, h2⟩) := by
  unfold WellPlateData.updateSamples at h
  rw [if_neg (by simp [hne])] at h
  obtain ⟨samples2, hm, heq⟩ := except_map_ok h
  obtain ⟨hlen, helt⟩ := except_mapM_ok hm
  subst heq
  exact ⟨rfl, hlen, helt⟩

theorem updateSamples_error_kind {st : WellPlateData} {e : JsError}
    (h : st.updateSamples = .error e) : e = .undefinedAccess := by
  unfold WellPlateData.updateSamples at h
  split at h
  · exact Except.noConfusion h
  · obtain ⟨s, _, hs⟩ := except_mapM_error (except_map_error h)
    exact updateSampleStep_error_kind hs

theorem except_mapM_ok_mem {α β : Type} {f : α → Except JsError β} {l : List α}
    {out : List β} (h : l.mapM f = .ok out) : ∀ x ∈ l, ∃ y, f x = .ok y := by
  obtain ⟨hlen, helt⟩ := except_mapM_ok h
  intro x hx
  obtain ⟨⟨i, hi⟩, hget⟩ := List.mem_iff_get.mp hx
  exact ⟨out.get ⟨i, by omega⟩, by rw [← hget]; exact helt i hi (by omega)⟩

theorem zipWith_addReagents_get? (ws : List Well) (rs : List (List Reagent)) (i : ℕ)
    (w : Well) (r : List Reagent) (h1 : ws.get? i = some w) (h2 : rs.get? i = some r) :
    (ws.zipWith Well.addReagents rs).get? i = some (w.addReagents r) := by
  simp only [List.get?_eq_getElem?] at *
  rw [List.getElem?_zipWith]
  simp [h1, h2]

theorem evalIds_nil {s : PlateSample} (hnone : ∀ r ∈ s.wells, r.inAverage = false) :
    evalIds s = [] := by
  unfold evalIds
  rw [List.filter_eq_nil_iff.mpr (fun r hr => by simp [hnone r hr])]
  rfl

theorem getWells_nil_ids (st : WellPlateData) : st.getWells (some []) = [] := by
  unfold WellPlateData.getWells
  exact List.filter_eq_nil_iff.mpr (fun w _ => by simp)

theorem updateSampleStep_no_members {st : WellPlateData} {s : PlateSample}
    (hnone : ∀ r ∈ s.wells, r.inAverage = false) :
    updateSampleStep st s = .error .undefinedAccess := by
  unfold updateSampleStep
  rw [evalIds_nil hnone, getWells_nil_ids]

theorem test_no_members {st : WellPlateData} {s : PlateSample}
    (hnone : ∀ r ∈ s.wells, r.inAverage = false) :
    st.test s = .error .undefinedAccess := by
  unfold WellPlateData.test
  rw [evalIds_nil hnone, getWells_nil_ids]

theorem addReagents_accepts {st : WellPlateData} {rs : List (List Reagent)}
    (h : rs.length = st.wells.length) :
    st.addReagentsFromArray rs
      = WellPlateData.updateSamples
          { st with wells := st.wells.zipWith Well.addReagents rs } := by
  unfold WellPlateData.addReagentsFromArray
  rw [if_neg (by omega)]

theorem addSpectrum_accepts {st : WellPlateData} {e0 : CurveEntry} {rest : List CurveEntry}
    (h : e0.array.y.length = e0.array.x.length) :
    st.addSpectrumFromArray (e0 :: rest)
      = WellPlateData.updateSamples
          { st with wells := st.wells.map (spectrumWellUpdate (e0 :: rest)) } := by
  show (if e0.array.y.length ≠ e0.array.x.length then Except.error JsError.badShape
    else WellPlateData.updateSamples
      { st with wells := st.wells.map (spectrumWellUpdate (e0 :: rest)) }) = _
  rw [if_neg (by simp [h])]

theorem addGrowthCurves_accepts {st : WellPlateData} {e0 : CurveEntry}
    {rest : List CurveEntry} (h : e0.array.y.length = e0.array.x.length) :
    st.addGrowthCurvesFromArray (e0 :: rest)
      = WellPlateData.updateSamples
          { st with wells := st.wells.map (growthCurveWellUpdate (e0 :: rest)) } := by
  show (if e0.array.y.length ≠ e0.array.x.length then Except.error JsError.badShape
    else WellPlateData.updateSamples
      { st with wells := st.wells.map (growthCurveWellUpdate (e0 :: rest)) }) = _
  rw [if_neg (by simp [h])]

/-- C2: of the four well-mutating entry points, `addReagentsFromArray`,
`addSpectrumFromArray` and `addGrowthCurvesFromArray` do return the
recomputation (`updateSamples`) of the mutated state, but
`addAnalysisFromArray` does not invoke the recomputation at all: its
result carries the old samples unchanged for every state and input, so
samples are observably stale right after the call. -/
theorem mutators_trigger_recomputation :
    (∀ (st : WellPlateData) (analysis : List WellAnalysis),
      (st.addAnalysisFromArray analysis).samples = st.samples) ∧
    (∀ (st : WellPlateData) (rs : List (List Reagent)), rs.length = st.wells.length →
      st.addReagentsFromArray rs
        = WellPlateData.updateSamples
            { st with wells := st.wells.zipWith Well.addReagents rs }) ∧
    (∀ (st : WellPlateData) (e0 : CurveEntry) (rest : List CurveEntry),
      e0.array.y.length = e0.array.x.length →
      st.addSpectrumFromArray (e0 :: rest)
        = WellPlateData.updateSamples
            { st with wells := st.wells.map (spectrumWellUpdate (e0 :: rest)) }) ∧
    (∀ (st : WellPlateData) (e0 : CurveEntry) (rest : List CurveEntry),
      e0.array.y.length = e0.array.x.length →
      st.addGrowthCurvesFromArray (e0 :: rest)
        = WellPlateData.updateSamples
            { st with wells := st.wells.map (growthCurveWellUpdate (e0 :: rest)) }) := by
  exact ⟨fun st a => rfl, fun st rs h => addReagents_accepts h,
    fun st e0 rest h => addSpectrum_accepts h,
    fun st e0 rest h => addGrowthCurves_accepts h⟩

/-- Witness for C2 at concrete inputs. -/
theorem mutators_trigger_recomputation_witness :
    (exPlateAllOut.addAnalysisFromArray []).samples = exPlateAllOut.samples ∧
    exPlateNum.addSpectrumFromArray [exGood]
      = WellPlateData.updateSamples
          { exPlateNum with wells := exPlateNum.wells.map (spectrumWellUpdate [exGood]) } :=
  ⟨mutators_trigger_recomputation.1 exPlateAllOut [],
   mutators_trigger_recomputation.2.2.1 exPlateNum exGood [] (by decide)⟩

/-- C4: `addReagentsFromArray` throws the length-mismatch error exactly
when the input length differs from the well count; the throw happens
before the assignment loop, so the error case produces no mutated state
(the embedding returns the error and nothing else). With matching
lengths every well i receives the i-th reagent list and the call
returns the recomputation of the mutated state. -/
theorem addReagentsFromArray_contract (st : WellPlateData) (rs : List (List Reagent)) :
    (st.addReagentsFromArray rs = .error .lengthMismatch ↔ rs.length ≠ st.wells.length) ∧
    (rs.length = st.wells.length →
      st.addReagentsFromArray rs
        = WellPlateData.updateSamples
            { st with wells := st.wells.zipWith Well.addReagents rs } ∧
      ∀ i w r, st.wells.get? i = some w → rs.get? i = some r →
        (st.wells.zipWith Well.addReagents rs).get? i = some (w.addReagents r)) := by
  constructor
  · constructor
    · intro h heq
      unfold WellPlateData.addReagentsFromArray at h
      rw [if_neg (by omega)] at h
      exact absurd (updateSamples_error_kind h) (by decide)
    · intro hne
      unfold WellPlateData.addReagentsFromArray
      rw [if_pos (by omega)]
  · intro heq
    refine ⟨?_, fun i w r h1 h2 => zipWith_addReagents_get? _ _ i w r h1 h2⟩
    unfold WellPlateData.addReagentsFromArray
    rw [if_neg (by omega)]

/-- Witness for C4: a too-short input throws the length-mismatch error;
a matching input returns the recomputation of the assigned state. -/
theorem addReagentsFromArray_contract_witness :
    exPlateNum.addReagentsFromArray [] = .error .lengthMismatch ∧
    exPlateNum.addReagentsFromArray [[exReagentB], [exReagentB]]
      = WellPlateData.updateSamples
          { exPlateNum with
            wells := exPlateNum.wells.zipWith Well.addReagents [[exReagentB], [exReagentB]] } :=
  ⟨(addReagentsFromArray_contract exPlateNum []).1.mpr (by decide),
   ((addReagentsFromArray_contract exPlateNum [[exReagentB], [exReagentB]]).2 (by decide)).1⟩

/-- C10: a sample with no `inAverage` member makes `updateSamples` (on a
plate whose samples already exist) raise instead of skipping it —
`updateSamples` reads `wells[0].reagents` of the empty evaluation set
with no guard, and `test` likewise reads `wells[0].analysis.processed`
before its emptiness guard, so both fail with the `undefined`-access
error. -/
theorem updateSamples_empty_evaluation_set_raises (st : WellPlateData) (s : PlateSample)
    (hmem : s ∈ st.samples) (hnone : ∀ r ∈ s.wells, r.inAverage = false) :
    st.updateSamples = .error .undefinedAccess ∧
    st.test s = .error .undefinedAccess := by
  refine ⟨?_, test_no_members hnone⟩
  cases hu : st.updateSamples with
  | ok st2 =>
    exfalso
    have hne : st.samples ≠ [] := fun hnil => by rw [hnil] at hmem; simp at hmem
    unfold WellPlateData.updateSamples at hu
    rw [if_neg (by simp [hne])] at hu
    obtain ⟨samples2, hm, _⟩ := except_map_ok hu
    obtain ⟨y, hy⟩ := except_mapM_ok_mem hm s hmem
    rw [updateSampleStep_no_members hnone] at hy
    exact Except.noConfusion hy
  | error e =>
    rw [updateSamples_error_kind hu]

/-- Witness for C10 at the concrete all-excluded sample. -/
theorem updateSamples_empty_evaluation_set_raises_witness :
    exPlateAllOut.updateSamples = .error .undefinedAccess ∧
    exPlateAllOut.test exSampleAllOut = .error .undefinedAccess :=
  updateSamples_empty_evaluation_set_raises exPlateAllOut exSampleAllOut
    (by decide) (by decide)

theorem test_preserves_members {st : WellPlateData} {sample sample' : PlateSample}
    (h : st.test sample = .ok sample') :
    sample'.wells.map (fun r => (r.id, r.inAverage))
      = sample.wells.map (fun r => (r.id, r.inAverage)) := by
  obtain ⟨_, _, _, _, hlen, helt⟩ := test_ok h
  apply List.ext_get
  · simp [hlen]
  · intro n hn1 hn2
    have hn1b : n < sample'.wells.length := by simpa using hn1
    have hn2b : n < sample.wells.length := by simpa using hn2
    have hp := helt n hn2b hn1b
    simp only [List.get_eq_getElem, List.getElem_map]
    simp only [List.get_eq_getElem] at hp
    exact Prod.ext hp.1 hp.2

theorem updateSampleStep_preserves {st : WellPlateData} {sample sample' : PlateSample}
    (h : updateSampleStep st sample = .ok sample') :
    sample'.id = sample.id ∧ sample'.label = sample.label ∧
    sample'.wells.map (fun r => (r.id, r.inAverage))
      = sample.wells.map (fun r => (r.id, r.inAverage)) := by
  obtain ⟨w0, rest, hget, htest⟩ := updateSampleStep_ok h
  obtain ⟨hid, hlab, _, _, _, _⟩ := test_ok htest
  have hm := test_preserves_members htest
  exact ⟨hid, hlab, hm⟩

/-- C3: `updateSamples` partitions the wells exactly once. With no
samples yet it creates one `PlateSample` per distinct positional label,
every member initially flagged `inAverage`; invoked on a plate whose
samples already exist it updates the existing sample objects in place:
sample ids, labels, member ids and manually edited `inAverage` flags
are all preserved. -/
theorem updateSamples_partitions_once (st : WellPlateData) :
    (st.samples = [] →
      st.updateSamples = .ok { st with samples := initialSamples st.wells } ∧
      (initialSamples st.wells).length = (dedupFirst (st.wells.map Well.label)).length ∧
      ∀ i (h : i < (initialSamples st.wells).length),
        ∀ r ∈ ((initialSamples st.wells).get ⟨i, h⟩).wells, r.inAverage = true) ∧
    (∀ st2 : WellPlateData, st.samples ≠ [] → st.updateSamples = .ok st2 →
      st2.samples.length = st.samples.length ∧
      ∀ i (h1 : i < st.samples.length) (h2 : i < st2.samples.length),
        (st2.samples.get ⟨i, h2⟩).id = (st.samples.get ⟨i, h1⟩).id ∧
        (st2.samples.get ⟨i, h2⟩).label = (st.samples.get ⟨i, h1⟩).label ∧
        (st2.samples.get ⟨i, h2⟩).wells.map (fun r => (r.id, r.inAverage))
          = (st.samples.get ⟨i, h1⟩).wells.map (fun r => (r.id, r.inAverage))) := by
  constructor
  · intro hempty
    refine ⟨updateSamples_of_empty hempty, by simp [initialSamples, getSamplesIDs], ?_⟩
    intro i h r hr
    rw [List.get_eq_getElem] at hr
    simp only [initialSamples, List.getElem_mapIdx] at hr
    obtain ⟨j, _, hj⟩ := List.mem_map.mp hr
    rw [← hj]
  · intro st2 hne hok
    obtain ⟨hwells, hlen, helt⟩ := updateSamples_ok_elt hne hok
    refine ⟨hlen, fun i h1 h2 => ?_⟩
    obtain ⟨hid, hlab, hmem⟩ := updateSampleStep_preserves (helt i h1 h2)
    exact ⟨hid, hlab, hmem⟩

/-- Witness for C3: a fresh plate gets its samples created; the
three-member plate's existing sample collection keeps its length. -/
theorem updateSamples_partitions_once_witness :
    exPlateNum.updateSamples
      = .ok { exPlateNum with samples := initialSamples exPlateNum.wells } ∧
    ∃ st2, exPlate3.updateSamples = .ok st2 ∧
      st2.samples.length = exPlate3.samples.length := by
  refine ⟨((updateSamples_partitions_once exPlateNum).1 (by decide)).1, ?_⟩
  cases hu : exPlate3.updateSamples with
  | error e =>
    exfalso
    have hok : exPlate3.updateSamples.isOk = true := by decide
    rw [hu] at hok
    simp [Except.isOk, Except.toBool] at hok
  | ok st2 =>
    exact ⟨st2, rfl,
      ((updateSamples_partitions_once exPlate3).2 st2 (by decide) hu).1⟩

/-- C8 counterexample: on the concrete plate whose sample's first
member well (id 1-7, reagent concentration 3/2) is excluded from the
average, recomputation sets the sample's reagents to those of the first
`inAverage` member (id 2-7, concentration 5/2), not to those of the
first member well. -/
theorem sample_reagents_counterexample :
    (exPlateC8.updateSamples.map (fun st2 => st2.samples.map PlateSample.reagents))
      = .ok [[exReagentB]] ∧
    exSampleC8.wells.map (fun r => (r.id, r.inAverage))
      = [(strL "1-7", false), (strL "2-7", true)] ∧
    exPlateC8.getWell (strL "1-7") = some exWellC8a ∧
    exWellC8a.reagents = [exReagentA] ∧
    exReagentB ≠ exReagentA := by decide

/-- C8 amended: whenever `updateSamples` recomputes an existing
samples collection, each sample's reagents are set to the reagents of
the first well of its evaluation set — the first plate well among the
members currently flagged `inAverage` — rather than of its first member
well. -/
theorem sample_reagents_from_first_in_average (st st2 : WellPlateData)
    (hne : st.samples ≠ []) (h : st.updateSamples = .ok st2) :
    ∀ i (h1 : i < st.samples.length) (h2 : i < st2.samples.length),
      ∃ w0 rest, st.getWells (some (evalIds (st.samples.get ⟨i, h1⟩))) = w0 :: rest ∧
        (st2.samples.get ⟨i, h2⟩).reagents = w0.reagents := by
  intro i h1 h2
  obtain ⟨_, _, helt⟩ := updateSamples_ok_elt hne h
  obtain ⟨w0, rest, hget, htest⟩ := updateSampleStep_ok (helt i h1 h2)
  obtain ⟨_, _, hrg, _, _, _⟩ := test_ok htest
  exact ⟨w0, rest, hget, by simpa using hrg⟩

/-- Witness for C8's amended claim at the concrete plate. -/
theorem sample_reagents_from_first_in_average_witness :
    ∃ st2, exPlateC8.updateSamples = .ok st2 ∧
      ∃ w0 rest,
        exPlateC8.getWells (some (evalIds (exSampleC8))) = w0 :: rest ∧
        ∃ h2 : 0 < st2.samples.length, (st2.samples.get ⟨0, h2⟩).reagents = w0.reagents := by
  cases hu : exPlateC8.updateSamples with
  | error e =>
    exfalso
    have hok : exPlateC8.updateSamples.isOk = true := by decide
    rw [hu] at hok
    simp [Except.isOk, Except.toBool] at hok
  | ok st2 =>
    have hlen : st2.samples.length = exPlateC8.samples.length :=
      (updateSamples_ok_elt (by decide) hu).2.1
    have h2 : 0 < st2.samples.length := by rw [hlen]; decide
    obtain ⟨w0, rest, hget, hrg⟩ :=
      sample_reagents_from_first_in_average exPlateC8 st2 (by decide) hu 0 (by decide) h2
    exact ⟨st2, rfl, w0, rest, hget, h2, hrg⟩

/-- C5 counterexample: the claim says the curve loaders throw whenever
some entry is not a well-formed pair of equal-length x and y arrays, but
only the first entry is validated — this input's second entry is
malformed and both loaders accept the list without error. -/
theorem curve_loaders_skip_tail_validation :
    exBad.array.x.length ≠ exBad.array.y.length ∧
    (exPlateNum.addSpectrumFromArray [exGood, exBad]).isOk = true ∧
    (exPlateNum.addGrowthCurvesFromArray [exGood, exBad]).isOk = true := by decide

/-- C5 amended: the curve loaders validate only `input[0]` — an empty
list raises a `TypeError` and a first entry with mismatched x/y lengths
raises the shape error, while later entries are unchecked; for an
accepted input every well with no matching entry is marked excluded
from display (`display = false`, dark grey color), and the call returns
the recomputation of the mutated state. -/
theorem curve_loaders_contract (st : WellPlateData) (e0 : CurveEntry)
    (rest : List CurveEntry) (hok : e0.array.y.length = e0.array.x.length) :
    st.addSpectrumFromArray (e0 :: rest)
      = WellPlateData.updateSamples
          { st with wells := st.wells.map (spectrumWellUpdate (e0 :: rest)) } ∧
    st.addGrowthCurvesFromArray (e0 :: rest)
      = WellPlateData.updateSamples
          { st with wells := st.wells.map (growthCurveWellUpdate (e0 :: rest)) } ∧
    (∀ st2 : WellPlateData, st2.addSpectrumFromArray [] = .error .undefinedAccess) ∧
    (∀ (st2 : WellPlateData) (e1 : CurveEntry) (rest1 : List CurveEntry),
      e1.array.y.length ≠ e1.array.x.length →
      st2.addSpectrumFromArray (e1 :: rest1) = .error .badShape) ∧
    (∀ w : Well, (e0 :: rest).filter (fun e => e.label = w.label) = [] →
      (spectrumWellUpdate (e0 :: rest) w).metadata.display = false ∧
      (spectrumWellUpdate (e0 :: rest) w).metadata.color = strL "darkgrey" ∧
      (growthCurveWellUpdate (e0 :: rest) w).metadata.display = false ∧
      (growthCurveWellUpdate (e0 :: rest) w).metadata.color = strL "darkgrey") := by
  refine ⟨addSpectrum_accepts hok, addGrowthCurves_accepts hok, fun st2 => rfl,
    fun st2 e1 rest1 hbad => ?_, fun w hfil => ?_⟩
  · show (if e1.array.y.length ≠ e1.array.x.length then Except.error JsError.badShape
      else _) = _
    rw [if_pos hbad]
  · unfold spectrumWellUpdate growthCurveWellUpdate
    rw [hfil]
    exact ⟨rfl, rfl, rfl, rfl⟩

/-- Witness for C5's amended claim: the two-well numeric plate with a
single entry matching only the first well — the unmatched well 12 is
marked excluded from display. -/
theorem curve_loaders_contract_witness :
    exPlateNum.addSpectrumFromArray [exGood]
      = WellPlateData.updateSamples
          { exPlateNum with wells := exPlateNum.wells.map (spectrumWellUpdate [exGood]) } ∧
    (spectrumWellUpdate [exGood] exWellN12).metadata.display = false ∧
    (spectrumWellUpdate [exGood] exWellN12).metadata.color = strL "darkgrey" :=
  ⟨(curve_loaders_contract exPlateNum exGood [] (by decide)).1,
   ((curve_loaders_contract exPlateNum exGood [] (by decide)).2.2.2.2 exWellN12
      (by decide)).1,
   ((curve_loaders_contract exPlateNum exGood [] (by decide)).2.2.2.2 exWellN12
      (by decide)).2.1⟩

theorem test_ok_fold {st : WellPlateData} {sample sample' : PlateSample}
    {w0 : Well} {rest : List Well}
    (htest : st.test sample = .ok sample')
    (hwells : st.getWells (some (evalIds sample)) = w0 :: rest)
    (hkeys : w0.analysis.processed ≠ []) :
    ∃ out : List SampleWellRef × Option ℚ,
      (w0.analysis.processed.map Prod.fst).foldlM
        (fun acc key => testKeyStep st (evalIds sample) (w0 :: rest) key acc.1)
        (sample.wells.map (fun r => { r with test := ([] : List TestEntry) }),
          sample.grubbsCriticalValue) = .ok out ∧
      sample' = { sample with wells := out.1, grubbsCriticalValue := out.2 } := by
  unfold WellPlateData.test at htest
  split at htest
  · rename_i heq
    rw [hwells] at heq
    exact List.noConfusion heq
  · rename_i w0' rest' heq
    rw [hwells] at heq
    injection heq with hw0 hrest
    subst hw0
    subst hrest
    rw [if_neg (by simp [List.isEmpty_iff, hkeys])] at htest
    obtain ⟨out, hfold, hmap⟩ := except_map_ok htest
    exact ⟨out, hfold, hmap.symm⟩

/-- C6: after outlier evaluation of a sample with a non-empty
evaluation set and at least one metric key, a member excluded from the
evaluation set (id outside the evaluation-id set) receives exactly one
result entry per metric, carrying that well's own metric value, a
placeholder statistic of 0, a `pass` verdict that is neither true nor
false (`undefined`), and the not-evaluated color, which differs from
both the pass and the fail colors. -/
theorem test_not_evaluated_entries (st : WellPlateData) (sample sample' : PlateSample)
    (w0 : Well) (rest : List Well) (j : ℕ) (well : Well)
    (htest : st.test sample = .ok sample')
    (hwells : st.getWells (some (evalIds sample)) = w0 :: rest)
    (hkeys : w0.analysis.processed ≠ [])
    (h1 : j < sample.wells.length)
    (hnot : (sample.wells.get ⟨j, h1⟩).id ∉ evalIds sample)
    (hw : st.getWell (sample.wells.get ⟨j, h1⟩).id = some well) :
    ∃ h2 : j < sample'.wells.length,
      (sample'.wells.get ⟨j, h2⟩).test
        = (w0.analysis.processed.map Prod.fst).map (notEvalEntry well) ∧
      (∀ key, (notEvalEntry well key).value = alookup well.analysis.processed key ∧
        (notEvalEntry well key).score = 0 ∧
        (notEvalEntry well key).pass ≠ some true ∧
        (notEvalEntry well key).pass ≠ some false ∧
        (notEvalEntry well key).color = notEvaluatedColor) ∧
      notEvaluatedColor ≠ passColor ∧ notEvaluatedColor ≠ failColor := by
  obtain ⟨out, hfold, hmap⟩ := test_ok_fold htest hwells hkeys
  subst hmap
  obtain ⟨hlen, helt⟩ := testFold_ok hfold
  have hj : j < (sample.wells.map
      (fun r : SampleWellRef => { r with test := ([] : List TestEntry) })).length := by
    simpa using h1
  have hj2 : j < out.1.length := by rw [hlen]; exact hj
  obtain ⟨hid, hin, es, htst, hlab, hcv, hne⟩ := helt j hj hj2
  have hcid : ((sample.wells.map
      (fun r : SampleWellRef => { r with test := ([] : List TestEntry) })).get ⟨j, hj⟩).id
      = (sample.wells.get ⟨j, h1⟩).id := by
    simp
  have hes := hne well (by rw [hcid]; exact hnot) (by rw [hcid]; exact hw)
  refine ⟨hj2, ?_, ?_, by decide, by decide⟩
  · rw [htst, hes]
    simp
  · intro key
    exact ⟨rfl, rfl, by simp [notEvalEntry], by simp [notEvalEntry], rfl⟩

/-- Witness for C6 at the four-member plate whose first member is
excluded from the average. -/
theorem test_not_evaluated_entries_witness :
    ∃ sample', exPlate4.test exSample4 = .ok sample' ∧
      ∃ h2 : 0 < sample'.wells.length,
        (sample'.wells.get ⟨0, h2⟩).test
          = ((exWell3 1).analysis.processed.map Prod.fst).map (notEvalEntry (exWell3 0)) := by
  cases ht : exPlate4.test exSample4 with
  | error e =>
    exfalso
    have hok : (exPlate4.test exSample4).isOk = true := by decide
    rw [ht] at hok
    simp [Except.isOk, Except.toBool] at hok
  | ok sample' =>
    obtain ⟨h2, hts, _, _, _⟩ := test_not_evaluated_entries exPlate4 exSample4 sample'
      (exWell3 1) [exWell3 2, exWell3 3] 0 (exWell3 0) ht (by decide) (by decide)
      (by decide) (by decide) (by decide)
    exact ⟨sample', rfl, h2, hts⟩

/-- C7 counterexample: on the three-member plate the critical value
used (n = 3, the table value 1.153) is stored once on the sample's
`grubbsCriticalValue`, while the `criticalValue` property of every one
of the nine-minus-six result entries is `undefined` (`none`) — no
result object contains the group critical value used, contrary to the
claim. -/
theorem test_entries_lack_critical_value :
    (exPlate3.updateSamples.map (fun st2 => st2.samples.map (fun s =>
        (s.grubbsCriticalValue, s.wells.map (fun r => r.test.map TestEntry.criticalValue)))))
      = .ok [(some (Rat.divInt 1153 1000), [[none], [none], [none]])] ∧
    some (Rat.divInt 1153 1000) ≠ (none : Option ℚ) := by decide

/-- C7 amended: whenever evaluation proceeds past its guard, every
member reference's previous results are discarded and replaced by
exactly one entry per metric key — the labels of the fresh result list
are exactly the metric keys, whatever was stored before — and each
entry contains name, color, value, statistic and verdict but an
`undefined` `criticalValue`; the group critical value is recorded once
per sample on `grubbsCriticalValue` instead. -/
theorem test_replaces_results (st : WellPlateData) (sample sample' : PlateSample)
    (w0 : Well) (rest : List Well)
    (htest : st.test sample = .ok sample')
    (hwells : st.getWells (some (evalIds sample)) = w0 :: rest)
    (hkeys : w0.analysis.processed ≠ []) :
    sample'.wells.length = sample.wells.length ∧
    ∀ j (h2 : j < sample'.wells.length),
      (sample'.wells.get ⟨j, h2⟩).test.map TestEntry.label
        = w0.analysis.processed.map Prod.fst ∧
      ∀ e ∈ (sample'.wells.get ⟨j, h2⟩).test, e.criticalValue = none := by
  obtain ⟨out, hfold, hmap⟩ := test_ok_fold htest hwells hkeys
  subst hmap
  obtain ⟨hlen, helt⟩ := testFold_ok hfold
  have hclen : (sample.wells.map
      (fun r : SampleWellRef => { r with test := ([] : List TestEntry) })).length
      = sample.wells.length := by simp
  refine ⟨by simpa [hclen] using hlen, fun j h2 => ?_⟩
  have hj : j < (sample.wells.map
      (fun r : SampleWellRef => { r with test := ([] : List TestEntry) })).length := by
    rw [← hlen]; exact h2
  obtain ⟨hid, hin, es, htst, hlab, hcv, hne⟩ := helt j hj h2
  have htest2 : (out.1.get ⟨j, h2⟩).test = es := by
    rw [htst]
    simp
  rw [htest2]
  exact ⟨hlab, hcv⟩

/-- Witness for C7's amended claim at the four-member plate. -/
theorem test_replaces_results_witness :
    ∃ sample', exPlate4.test exSample4 = .ok sample' ∧
      sample'.wells.length = exSample4.wells.length := by
  cases ht : exPlate4.test exSample4 with
  | error e =>
    exfalso
    have hok : (exPlate4.test exSample4).isOk = true := by decide
    rw [ht] at hok
    simp [Except.isOk, Except.toBool] at hok
  | ok sample' =>
    exact ⟨sample', rfl,
      (test_replaces_results exPlate4 exSample4 sample' (exWell3 1)
        [exWell3 2, exWell3 3] ht (by decide) (by decide)).1⟩

theorem alpha_not_digit {c : Char} (h : isAlphaC c = true) : isDigitC c = false := by
  simp only [isAlphaC, Bool.or_eq_true, Bool.and_eq_true, decide_eq_true_eq] at h
  simp only [isDigitC, Bool.and_eq_true, decide_eq_true_eq, Bool.and_eq_false_iff,
    decide_eq_false_iff_not]
  omega

theorem digit_not_alpha {c : Char} (h : isDigitC c = true) : isAlphaC c = false := by
  simp only [isDigitC, Bool.and_eq_true, decide_eq_true_eq] at h
  simp only [isAlphaC, Bool.or_eq_false_iff, Bool.and_eq_false_iff,
    decide_eq_false_iff_not]
  omega

theorem parseIntPrefix_digits {l : List Char} (hne : l ≠ [])
    (hall : ∀ c ∈ l, isDigitC c = true) :
    parseIntPrefix l = some (charsAsNat l : ℤ) := by
  unfold parseIntPrefix
  cases l with
  | nil => exact absurd rfl hne
  | cons c cs =>
    rw [stripSign_digit (hall c (List.mem_cons_self _ _))]
    dsimp only
    simp [parseDigitsPrefix, takeWhile_all hall]

theorem stripSign_alpha {c : Char} (h : isAlphaC c = true) (l : List Char) :
    stripSign (c :: l) = (false, c :: l) := by
  have h1 : c ≠ '-' := by rintro rfl; exact absurd h (by decide)
  have h2 : c ≠ '+' := by rintro rfl; exact absurd h (by decide)
  simp [stripSign, h1, h2]

theorem parseIntPrefix_alpha {c : Char} (l : List Char) (h : isAlphaC c = true) :
    parseIntPrefix (c :: l) = none := by
  unfold parseIntPrefix
  rw [stripSign_alpha h]
  unfold parseDigitsPrefix
  simp [List.takeWhile_cons, alpha_not_digit h]

theorem charsToNat?_natToChars (L : ℕ) : charsToNat? (natToChars L) = some L := by
  unfold charsToNat?
  rw [if_pos ⟨natToChars_ne_nil L,
    List.all_eq_true.mpr (fun c hc => natToChars_all_digits L c hc)⟩]
  rw [charsAsNat_natToChars]

theorem getWellsPositions_nat (L : ℕ) (hL : 1 ≤ L) :
    getWellsPositions (L : ℤ)
      = [(((L - 1) / 10 + 1 : ℕ) : ℤ), ((L - 10 * ((L - 1) / 10) : ℕ) : ℤ)] := by
  unfold getWellsPositions
  have h1 : ((L : ℤ) - 1).fdiv 10 = (((L - 1) / 10 : ℕ) : ℤ) := by
    rw [show ((L : ℤ) - 1) = (((L - 1 : ℕ) : ℤ)) by omega]
    exact (Int.ofNat_fdiv _ _).symm
  rw [h1]
  simp only [List.cons.injEq, and_true]
  constructor
  · push_cast
    ring
  · have hdiv : 10 * ((L - 1) / 10) ≤ L := by omega
    push_cast
    omega

theorem intToChars_ofNat (n : ℕ) : intToChars (n : ℤ) = natToChars n := by
  unfold intToChars
  rw [if_neg (by omega)]
  simp

theorem regexRunsFuel_nil (fuel : ℕ) : regexRunsFuel fuel [] = [] := by
  cases fuel <;> rfl

theorem regexRunsFuel_digits {ds : List Char} (hne : ds ≠ [])
    (hall : ∀ c ∈ ds, isDigitC c = true) :
    ∀ fuel, ds.length ≤ fuel → regexRunsFuel fuel ds = [ds] := by
  intro fuel hf
  cases ds with
  | nil => exact absurd rfl hne
  | cons c cs =>
    cases fuel with
    | zero => simp at hf
    | succ f =>
      rw [regexRunsFuel]
      rw [if_pos (hall c (List.mem_cons_self _ _))]
      rw [takeWhile_all (fun x hx => hall x (List.mem_cons_of_mem _ hx)),
        dropWhile_all (fun x hx => hall x (List.mem_cons_of_mem _ hx))]
      rw [regexRunsFuel_nil]

theorem regexRuns_alpha_digits {ls ds : List Char} (hlne : ls ≠ []) (hdne : ds ≠ [])
    (hla : ∀ c ∈ ls, isAlphaC c = true) (hda : ∀ c ∈ ds, isDigitC c = true) :
    regexRuns (ls ++ ds) = [ls, ds] := by
  unfold regexRuns
  cases ls with
  | nil => exact absurd rfl hlne
  | cons c cs =>
    have hlen : ((c :: cs ++ ds)).length = (cs.length + ds.length) + 1 := by
      simp
    rw [hlen, List.cons_append, regexRunsFuel]
    rw [alpha_not_digit (hla c (List.mem_cons_self _ _))]
    rw [if_neg (by simp)]
    rw [if_pos (hla c (List.mem_cons_self _ _))]
    have hcs : ∀ x ∈ cs, isAlphaC x = true :=
      fun x hx => hla x (List.mem_cons_of_mem _ hx)
    rw [takeWhile_append_all _ hcs, dropWhile_append_all _ hcs]
    have hdt : ds.takeWhile isAlphaC = [] := by
      cases ds with
      | nil => rfl
      | cons d ds2 =>
        simp [List.takeWhile_cons, digit_not_alpha (hda d (List.mem_cons_self _ _))]
    have hdd : ds.dropWhile isAlphaC = ds := by
      cases ds with
      | nil => rfl
      | cons d ds2 =>
        simp [List.dropWhile_cons, digit_not_alpha (hda d (List.mem_cons_self _ _))]
    rw [hdt, hdd]
    rw [regexRunsFuel_digits hdne hda _ (by omega)]
    simp

/-- C9: in `getTemplate`, a well with a purely numeric label of value L
gets the emitted position pair (⌊(L−1)/10⌋ + 1, L − 10·⌊(L−1)/10⌋)
under the fixed column count of 10; a well with an alphanumeric label
gets its letter run followed by its digit run; the concentrations
follow in both cases. -/
theorem template_row_positions (w : Well) :
    (∀ L : ℕ, 1 ≤ L → w.label = natToChars L →
      wellTemplateRow w
        = natToChars ((L - 1) / 10 + 1) :: natToChars (L - 10 * ((L - 1) / 10))
            :: w.reagents.map (fun r => printDecimal r.concentration)) ∧
    (∀ ls ds : List Char, ls ≠ [] → ds ≠ [] →
      (∀ c ∈ ls, isAlphaC c = true) → (∀ c ∈ ds, isDigitC c = true) →
      w.label = ls ++ ds →
      wellTemplateRow w
        = ls :: ds :: w.reagents.map (fun r => printDecimal r.concentration)) := by
  constructor
  · intro L hL hlab
    unfold wellTemplateRow
    rw [hlab, parseIntPrefix_digits (natToChars_ne_nil L) (natToChars_all_digits L)]
    rw [if_pos (by simp)]
    rw [charsToNat?_natToChars]
    simp only [Option.getD_some]
    rw [getWellsPositions_nat L hL]
    simp only [List.map_cons, List.map_nil, intToChars_ofNat, List.cons_append,
      List.nil_append]
  · intro ls ds hlne hdne hla hda hlab
    unfold wellTemplateRow
    rw [hlab]
    cases ls with
    | nil => exact absurd rfl hlne
    | cons c cs =>
      rw [show ((c :: cs) ++ ds) = c :: (cs ++ ds) by simp]
      rw [parseIntPrefix_alpha _ (hla c (List.mem_cons_self _ _))]
      rw [if_neg (by simp)]
      rw [show (c :: (cs ++ ds)) = ((c :: cs) ++ ds) by simp]
      rw [regexRuns_alpha_digits hlne hdne hla hda]
      simp

/-- Witness for C9 at labels 57 and A1. -/
theorem template_row_positions_witness :
    wellTemplateRow exWell57
      = natToChars ((57 - 1) / 10 + 1) :: natToChars (57 - 10 * ((57 - 1) / 10))
          :: exWell57.reagents.map (fun r => printDecimal r.concentration) ∧
    wellTemplateRow exWellA1
      = strL "A" :: strL "1"
          :: exWellA1.reagents.map (fun r => printDecimal r.concentration) :=
  ⟨(template_row_positions exWell57).1 57 (by decide) (by decide),
   (template_row_positions exWellA1).2 (strL "A") (strL "1") (by decide) (by decide)
     (by decide) (by decide) (by decide)⟩

theorem intercalate_cons₂ (s a b : List Char) (t : List (List Char)) :
    List.intercalate s (a :: b :: t) = a ++ s ++ List.intercalate s (b :: t) := by
  simp [List.intercalate, List.intersperse_cons_cons, List.flatten_cons, List.append_assoc]

theorem mem_intercalate {x : Char} {s : List Char} :
    ∀ (l : List (List Char)), x ∈ List.intercalate s l → x ∈ s ∨ ∃ cell ∈ l, x ∈ cell := by
  intro l
  induction l with
  | nil => intro h; simp [List.intercalate] at h
  | cons a t ih =>
    intro h
    cases t with
    | nil =>
      simp only [List.intercalate, List.intersperse_singleton, List.flatten_cons,
        List.flatten_nil, List.append_nil] at h
      exact Or.inr ⟨a, by simp, h⟩
    | cons b t2 =>
      rw [intercalate_cons₂, List.append_assoc, List.mem_append] at h
      cases h with
      | inl ha => exact Or.inr ⟨a, by simp, ha⟩
      | inr h2 =>
        rw [List.mem_append] at h2
        cases h2 with
        | inl hs => exact Or.inl hs
        | inr ht =>
          cases ih ht with
          | inl hs => exact Or.inl hs
          | inr hcell =>
            obtain ⟨cell, hc, hx⟩ := hcell
            exact Or.inr ⟨cell, List.mem_cons_of_mem _ hc, hx⟩

theorem template_text_splits (rows : List (List (List Char))) (sep : Char)
    (hsep : sep ≠ '\n') (hrows : rows ≠ [])
    (hcell : ∀ row ∈ rows, row ≠ [] ∧ ∀ cell ∈ row, ∀ c ∈ cell, c ≠ sep ∧ c ≠ '\n') :
    ((List.intercalate ['\n'] (rows.map (fun row => List.intercalate [sep] row))).splitOn
        '\n').map (fun row => row.splitOn sep) = rows := by
  have h1 : (List.intercalate ['\n']
        (rows.map (fun row => List.intercalate [sep] row))).splitOn '\n'
      = rows.map (fun row => List.intercalate [sep] row) := by
    refine List.splitOn_intercalate _ '\n' ?_ (by simpa using hrows)
    intro l hl
    rw [List.mem_map] at hl
    obtain ⟨row, hrow, rfl⟩ := hl
    intro hmem
    rcases mem_intercalate _ hmem with h | hcellmem
    · rw [List.mem_singleton] at h
      exact hsep h.symm
    · obtain ⟨cell, hc, hx⟩ := hcellmem
      exact ((hcell row hrow).2 cell hc '\n' hx).2 rfl
  rw [h1, List.map_map]
  conv_rhs => rw [← List.map_id rows]
  refine List.map_congr_left ?_
  intro row hrow
  exact List.splitOn_intercalate _ sep
    (fun cell hc hx => ((hcell row hrow).2 cell hc sep hx).1 rfl)
    ((hcell row hrow).1)

theorem printDecimal_chars (q : ℚ) :
    ∀ c ∈ printDecimal q, isDigitC c = true ∨ c = '-' ∨ c = '.' := by
  have hbody : ∀ (ds : List Char), (∀ c ∈ ds, isDigitC c = true) →
      ∀ (kk : ℕ) (c : Char),
        c ∈ (if kk = 0 then ds
          else ds.take (ds.length - kk) ++ '.' :: ds.drop (ds.length - kk)) →
        isDigitC c = true ∨ c = '-' ∨ c = '.' := by
    intro ds hall kk c hc
    split at hc
    · exact Or.inl (hall c hc)
    · rw [List.mem_append] at hc
      cases hc with
      | inl h => exact Or.inl (hall c (List.mem_of_mem_take h))
      | inr h =>
        rw [List.mem_cons] at h
        cases h with
        | inl h => exact Or.inr (Or.inr h)
        | inr h => exact Or.inl (hall c (List.mem_of_mem_drop h))
  intro c hc
  unfold printDecimal at hc
  dsimp only at hc
  have hds : ∀ x ∈ (if (natToChars (qmul q (qpow 10 (decExp q))).num.natAbs).length ≤ decExp q
      then List.replicate
          (decExp q + 1 - (natToChars (qmul q (qpow 10 (decExp q))).num.natAbs).length) '0'
          ++ natToChars (qmul q (qpow 10 (decExp q))).num.natAbs
      else natToChars (qmul q (qpow 10 (decExp q))).num.natAbs), isDigitC x = true := by
    intro x hx
    split at hx
    · rw [List.mem_append] at hx
      cases hx with
      | inl h => rw [List.mem_replicate] at h; rw [h.2]; decide
      | inr h => exact natToChars_all_digits _ x h
    · exact natToChars_all_digits _ x hx
  split at hc
  · rw [List.mem_cons] at hc
    cases hc with
    | inl h => exact Or.inr (Or.inl h)
    | inr h => exact hbody _ hds _ c h
  · exact hbody _ hds _ c hc

theorem printDecimal_safe (q : ℚ) : ∀ c ∈ printDecimal q, c ≠ ',' ∧ c ≠ '\n' := by
  intro c hc
  rcases printDecimal_chars q c hc with h | h | h
  · constructor <;> rintro rfl <;> exact absurd h (by decide)
  · subst h; constructor <;> decide
  · subst h; constructor <;> decide

theorem digits_safe {l : List Char} (h : ∀ c ∈ l, isDigitC c = true) :
    ∀ c ∈ l, c ≠ ',' ∧ c ≠ '\n' := by
  intro c hc
  have := h c hc
  constructor <;> rintro rfl <;> exact absurd this (by decide)

theorem reagentHeaderCell_safe {r : Reagent} (h : HeaderSafe r) :
    ∀ c ∈ reagentHeaderCell r, c ≠ ',' ∧ c ≠ '\n' := by
  obtain ⟨hl, _, hu⟩ := h
  intro c hc
  unfold reagentHeaderCell at hc
  rw [List.mem_append, List.mem_cons] at hc
  rcases hc with h1 | h2 | h3
  · exact ⟨(hl c h1).2.1, (hl c h1).2.2⟩
  · subst h2; constructor <;> decide
  · rw [List.mem_append, List.mem_singleton] at h3
    cases h3 with
    | inl h => exact ⟨(hu c h).2.2.1, (hu c h).2.2.2⟩
    | inr h => subst h; constructor <;> decide

theorem execUnit_eval {label unit : List Char} (hl : '(' ∉ label) (hu : ')' ∉ unit)
    (hne : unit ≠ []) : execUnit (label ++ '(' :: (unit ++ [')'])) = some unit := by
  induction label with
  | nil =>
    rw [List.nil_append, execUnit]
    rw [if_pos rfl]
    have ht : (unit ++ [')']).takeWhile (fun d => !(d = ')')) = unit := by
      rw [takeWhile_append_all _ (fun x hx => by
        simp only [Bool.not_eq_true', decide_eq_false_iff_not]
        exact fun hx2 => hu (hx2 ▸ hx))]
      simp
    have hd : (unit ++ [')']).dropWhile (fun d => !(d = ')')) = [')'] := by
      rw [dropWhile_append_all _ (fun x hx => by
        simp only [Bool.not_eq_true', decide_eq_false_iff_not]
        exact fun hx2 => hu (hx2 ▸ hx))]
      simp
    rw [ht, hd]
    rw [if_pos (by simp [hne])]
  | cons c cs ih =>
    rw [List.cons_append, execUnit]
    rw [if_neg (fun hc => hl (List.mem_cons.mpr (Or.inl hc.symm)))]
    exact ih (fun hc => hl (List.mem_cons_of_mem _ hc))

theorem parseHeaderReagent_eval (r : Reagent) (q : ℚ) (hs : HeaderSafe r) :
    parseHeaderReagent (reagentHeaderCell r) q
      = .ok { label := r.label, unit := r.unit, concentration := q } := by
  obtain ⟨hl, hune, hu⟩ := hs
  unfold parseHeaderReagent reagentHeaderCell
  rw [execUnit_eval (fun hc => (hl '(' hc).1 rfl) (fun hc => (hu ')' hc).2.1 rfl) hune]
  have hsplit : (r.label ++ '(' :: (r.unit ++ [')'])).splitOn '('
      = r.label :: (r.unit ++ [')']).splitOn '(' := by
    show (r.label ++ '(' :: (r.unit ++ [')'])).splitOnP (· == '(')
      = r.label :: (r.unit ++ [')']).splitOnP (· == '(')
    exact List.splitOnP_first _ _
      (fun x hx => by simpa using fun hx2 => (hl x hx).1 hx2) '('
      (by simp) _
  rw [hsplit]
  rfl

theorem except_mapM_map_ok {α β γ : Type} {f : α → Except JsError β} {g : γ → α}
    {h : γ → β} :
    ∀ {l : List γ}, (∀ a ∈ l, f (g a) = .ok (h a)) → (l.map g).mapM f = .ok (l.map h) := by
  intro l
  induction l with
  | nil => intro _; rfl
  | cons a t ih =>
    intro hall
    rw [List.map_cons, List.mapM_cons, hall a (List.mem_cons_self _ _),
      ih (fun b hb => hall b (List.mem_cons_of_mem _ hb))]
    rfl

theorem map_range_getD {α : Type} (l : List α) (d : α) :
    (List.range l.length).map (fun i => l.getD i d) = l := by
  apply List.ext_getElem
  · simp
  · intro i h1 h2
    simp only [List.getElem_map, List.getElem_range]
    rw [List.getD_eq_getElem?_getD, List.getElem?_eq_getElem h2]
    rfl

theorem range_drop_two (n : ℕ) :
    (List.range (2 + n)).drop 2 = (List.range n).map (fun i => 2 + i) := by
  rw [List.range_add]
  have h2 : (List.range 2).length = 2 := by simp
  calc (List.range 2 ++ (List.range n).map (fun x => 2 + x)).drop 2
      = (List.range 2 ++ (List.range n).map (fun x => 2 + x)).drop
          (List.range 2).length := by rw [h2]
    _ = (List.range n).map (fun x => 2 + x) := List.drop_left _ _

theorem templateRowRec_eval (numeric : Bool) (hdr : List Reagent) (w : Well)
    (p1 p2 : List Char)
    (hmap : hdr.map (fun r => (r.label, r.unit))
        = w.reagents.map (fun r => (r.label, r.unit)))
    (hsafe : ∀ r ∈ hdr, HeaderSafe r)
    (hdec : ∀ r ∈ w.reagents, IsDec r.concentration) :
    templateRowRec numeric (strL "row" :: strL "column" :: hdr.map reagentHeaderCell)
        (p1 :: p2 :: w.reagents.map (fun r => printDecimal r.concentration))
      = .ok { id := templateRowId numeric
                (p1 :: p2 :: w.reagents.map (fun r => printDecimal r.concentration)),
              reagents := w.reagents } := by
  have hlen : hdr.length = w.reagents.length := by
    have := congrArg List.length hmap
    simpa using this
  unfold templateRowRec
  have hlen2 : (strL "row" :: strL "column" :: hdr.map reagentHeaderCell).length
      = 2 + hdr.length := by
    simp only [List.length_cons, List.length_map]
    omega
  rw [hlen2, range_drop_two]
  have hpoint : ∀ i ∈ List.range hdr.length,
      parseHeaderReagent
          ((strL "row" :: strL "column" :: hdr.map reagentHeaderCell).getD (2 + i)
            (strL "undefined"))
          ((parseFloatChars
            ((p1 :: p2 :: w.reagents.map (fun r => printDecimal r.concentration)).getD
              (2 + i) (strL "undefined"))).getD 0)
        = .ok (w.reagents.getD i { label := [], unit := [], concentration := 0 }) := by
    intro i hi
    rw [List.mem_range] at hi
    have hiw : i < w.reagents.length := hlen ▸ hi
    have hgd : hdr.getD i { label := [], unit := [], concentration := 0 }
        = hdr.get ⟨i, hi⟩ := by
      rw [List.getD_eq_getElem?_getD, List.getElem?_eq_getElem hi]
      rfl
    have hgw : w.reagents.getD i { label := [], unit := [], concentration := 0 }
        = w.reagents.get ⟨i, hiw⟩ := by
      rw [List.getD_eq_getElem?_getD, List.getElem?_eq_getElem hiw]
      rfl
    have hH : (strL "row" :: strL "column" :: hdr.map reagentHeaderCell).getD (2 + i)
        (strL "undefined") = reagentHeaderCell (hdr.get ⟨i, hi⟩) := by
      rw [show 2 + i = i + 1 + 1 by omega]
      simp only [List.getD_cons_succ]
      rw [List.getD_eq_getElem?_getD, List.getElem?_map, List.getElem?_eq_getElem hi]
      rfl
    have hR : (p1 :: p2 :: w.reagents.map (fun r => printDecimal r.concentration)).getD
        (2 + i) (strL "undefined")
        = printDecimal (w.reagents.get ⟨i, hiw⟩).concentration := by
      rw [show 2 + i = i + 1 + 1 by omega]
      simp only [List.getD_cons_succ]
      rw [List.getD_eq_getElem?_getD, List.getElem?_map, List.getElem?_eq_getElem hiw]
      rfl
    rw [hH, hR, hgw]
    rw [parseFloatChars_printDecimal (hdec _ (List.get_mem _ _ hiw))]
    rw [Option.getD_some]
    rw [parseHeaderReagent_eval _ _ (hsafe _ (List.get_mem _ _ hi))]
    have hlu : ((hdr.get ⟨i, hi⟩).label, (hdr.get ⟨i, hi⟩).unit)
        = ((w.reagents.get ⟨i, hiw⟩).label, (w.reagents.get ⟨i, hiw⟩).unit) := by
      have := congrArg (fun l => l[i]?) hmap
      simpa [List.getElem?_map, List.getElem?_eq_getElem hi,
        List.getElem?_eq_getElem hiw] using this
    have hl1 : (hdr.get ⟨i, hi⟩).label = (w.reagents.get ⟨i, hiw⟩).label := by
      have := congrArg Prod.fst hlu
      simpa using this
    have hu1 : (hdr.get ⟨i, hi⟩).unit = (w.reagents.get ⟨i, hiw⟩).unit := by
      have := congrArg Prod.snd hlu
      simpa using this
    rw [hl1, hu1]
  have hm : ((List.range hdr.length).map (fun i => 2 + i)).mapM (fun j =>
        parseHeaderReagent
          ((strL "row" :: strL "column" :: hdr.map reagentHeaderCell).getD j
            (strL "undefined"))
          ((parseFloatChars
            ((p1 :: p2 :: w.reagents.map (fun r => printDecimal r.concentration)).getD j
              (strL "undefined"))).getD 0))
      = .ok ((List.range hdr.length).map (fun i =>
          w.reagents.getD i { label := [], unit := [], concentration := 0 })) :=
    except_mapM_map_ok hpoint
  rw [hm, hlen, map_range_getD]
  rfl

theorem templateRowId_numeric (L : ℕ) (hL : 1 ≤ L) (tail : List (List Char)) :
    templateRowId true
        (natToChars ((L - 1) / 10 + 1) :: natToChars (L - 10 * ((L - 1) / 10)) :: tail)
      = strL "1-" ++ natToChars L := by
  unfold templateRowId
  rw [if_pos rfl]
  simp only [List.getD_cons_zero, List.getD_cons_succ]
  rw [parseIntPrefix_digits (natToChars_ne_nil _) (natToChars_all_digits _),
    parseIntPrefix_digits (natToChars_ne_nil _) (natToChars_all_digits _)]
  dsimp only
  rw [charsAsNat_natToChars, charsAsNat_natToChars]
  have harith : ((((L - 1) / 10 + 1 : ℕ) : ℤ) - 1) * 10
      + ((L - 10 * ((L - 1) / 10) : ℕ) : ℤ) = (L : ℤ) := by
    have h1 : 10 * ((L - 1) / 10) ≤ L := by omega
    push_cast
    omega
  rw [harith, intToChars_ofNat]

theorem templateRowId_alpha (a b : List Char) (tail : List (List Char)) :
    templateRowId false (a :: b :: tail) = strL "1-" ++ (a ++ b) := by
  unfold templateRowId
  rw [if_neg (by simp)]
  simp [List.append_assoc]

theorem templateNumericDetect_digits {a b : List Char} (tail : List (List Char))
    (hane : a ≠ []) (haall : ∀ c ∈ a, isDigitC c = true)
    (hbne : b ≠ []) (hball : ∀ c ∈ b, isDigitC c = true) :
    templateNumericDetect (a :: b :: tail) = true := by
  unfold templateNumericDetect
  simp only [List.getD_cons_zero, List.getD_cons_succ]
  rw [parseIntPrefix_digits hane haall, parseIntPrefix_digits hbne hball]
  rfl

theorem templateNumericDetect_alpha {c : Char} {rest : List Char}
    (hc : isAlphaC c = true) (row2 : List (List Char)) :
    templateNumericDetect ((c :: rest) :: row2) = false := by
  unfold templateNumericDetect
  simp only [List.getD_cons_zero]
  rw [parseIntPrefix_alpha _ hc]
  rfl

theorem applyTemplateRec_spec :
    ∀ (ws : List Well) (r : TemplateRec) (wb : Well),
      ws.find? (fun x => x.id == r.id) = some wb →
      ∃ ws2, applyTemplateRec ws r = .ok ws2 ∧
        ws2.map Well.id = ws.map Well.id ∧
        ws2.find? (fun x => x.id == r.id) = some (wb.updateReagents r.reagents) ∧
        ∀ k, k ≠ r.id → ws2.find? (fun x => x.id == k) = ws.find? (fun x => x.id == k) := by
  intro ws
  induction ws with
  | nil => intro r wb h; simp at h
  | cons w t ih =>
    intro r wb h
    by_cases hid : w.id = r.id
    · rw [List.find?_cons_of_pos _ (by simp [hid])] at h
      have hwb : wb = w := by
        have := h.symm
        simpa using this
      subst hwb
      refine ⟨wb.updateReagents r.reagents :: t, ?_, ?_, ?_, ?_⟩
      · simp only [applyTemplateRec]
        rw [if_pos hid.symm]
      · simp [Well.updateReagents]
      · rw [List.find?_cons_of_pos _ (by simp [Well.updateReagents, hid])]
      · intro k hk
        rw [List.find?_cons_of_neg _ (by
            simp only [Well.updateReagents, hid]
            exact fun hkk => hk (beq_iff_eq.mp hkk).symm),
          List.find?_cons_of_neg _ (by
            simp only [hid]
            exact fun hkk => hk (beq_iff_eq.mp hkk).symm)]
    · rw [List.find?_cons_of_neg _ (by simpa using fun hkk => hid hkk)] at h
      obtain ⟨ws2, hap, hmap2, hself, hother⟩ := ih r wb h
      refine ⟨w :: ws2, ?_, ?_, ?_, ?_⟩
      · simp only [applyTemplateRec]
        rw [if_neg (fun hkk => hid hkk.symm), hap]
        rfl
      · simp [hmap2]
      · rw [List.find?_cons_of_neg _ (by simpa using fun hkk => hid hkk)]
        exact hself
      · intro k hk
        by_cases hk2 : w.id = k
        · rw [List.find?_cons_of_pos _ (by simp [hk2]),
            List.find?_cons_of_pos _ (by simp [hk2])]
        · rw [List.find?_cons_of_neg _ (by simpa using fun hkk => hk2 hkk),
            List.find?_cons_of_neg _ (by simpa using fun hkk => hk2 hkk)]
          exact hother k hk

theorem applyFold_ok :
    ∀ (recs : List TemplateRec) (base : List Well),
      (∀ r ∈ recs, ∃ wb, base.find? (fun x => x.id == r.id) = some wb) →
      List.Pairwise (fun a b => a.id ≠ b.id) recs →
      ∃ final, recs.foldlM applyTemplateRec base = .ok final ∧
        final.map Well.id = base.map Well.id ∧
        (∀ k, (∀ r ∈ recs, r.id ≠ k) →
          final.find? (fun x => x.id == k) = base.find? (fun x => x.id == k)) ∧
        ∀ r ∈ recs, ∃ wb, base.find? (fun x => x.id == r.id) = some wb ∧
          final.find? (fun x => x.id == r.id) = some (wb.updateReagents r.reagents) := by
  intro recs
  induction recs with
  | nil =>
    intro base _ _
    exact ⟨base, rfl, rfl, fun k _ => rfl, fun r hr => absurd hr (List.not_mem_nil _)⟩
  | cons r0 rest ih =>
    intro base hmem hpw
    obtain ⟨wb0, hwb0⟩ := hmem r0 (List.mem_cons_self _ _)
    obtain ⟨ws2, hap, hmap2, hself, hother⟩ := applyTemplateRec_spec base r0 wb0 hwb0
    have hpw2 : List.Pairwise (fun a b => a.id ≠ b.id) rest := List.Pairwise.of_cons hpw
    have hr0rest : ∀ r ∈ rest, r0.id ≠ r.id :=
      fun r hr => (List.pairwise_cons.mp hpw).1 r hr
    have hmem2 : ∀ r ∈ rest, ∃ wb, ws2.find? (fun x => x.id == r.id) = some wb := by
      intro r hr
      obtain ⟨wb, hwb⟩ := hmem r (List.mem_cons_of_mem _ hr)
      exact ⟨wb, by rw [hother r.id (Ne.symm (hr0rest r hr))]; exact hwb⟩
    obtain ⟨final, hfold, hmapf, hotherf, hrecf⟩ := ih ws2 hmem2 hpw2
    refine ⟨final, ?_, ?_, ?_, ?_⟩
    · rw [List.foldlM_cons, hap]
      exact hfold
    · rw [hmapf, hmap2]
    · intro k hk
      rw [hotherf k (fun r hr => hk r (List.mem_cons_of_mem _ hr)),
        hother k (Ne.symm (hk r0 (List.mem_cons_self _ _)))]
    · intro r hr
      rcases List.mem_cons.mp hr with hr1 | hr2
      · subst hr1
        refine ⟨wb0, hwb0, ?_⟩
        rw [hotherf r.id (fun r2 hr2 => Ne.symm (hr0rest r2 hr2))]
        exact hself
      · obtain ⟨wb, hwb, hwbf⟩ := hrecf r hr2
        refine ⟨wb, ?_, hwbf⟩
        rw [← hother r.id (Ne.symm (hr0rest r hr2))]
        exact hwb

theorem splitOn_prefix_free {x : Char} {pre post : List Char} (hpre : x ∉ pre)
    (hpost : x ∉ post) : (pre ++ x :: post).splitOn x = [pre, post] := by
  show (pre ++ x :: post).splitOnP (· == x) = [pre, post]
  rw [List.splitOnP_first _ _
    (fun c hc => by simpa using fun (h : c = x) => hpre (h ▸ hc)) x (by simp) post]
  rw [List.splitOnP_eq_single _ _
    (fun c hc => by simpa using fun (h : c = x) => hpost (h ▸ hc))]

theorem wellPlateDataNew_find (labels : List (List Char)) (typeOfPlate k : List Char)
    (hk : k ∈ labels) :
    ∃ wb, (wellPlateDataNew labels typeOfPlate).wells.find? (fun x => x.id == k)
        = some wb ∧ wb.id = k ∧ wb.label = (k.splitOn '-').getD 1 (strL "undefined") := by
  unfold wellPlateDataNew
  dsimp only
  induction labels with
  | nil => simp at hk
  | cons s t ih =>
    by_cases hs : s = k
    · subst hs
      dsimp only [List.map_cons]
      rw [List.find?_cons_of_pos _ (by simp)]
      exact ⟨_, rfl, rfl, rfl⟩
    · rcases List.mem_cons.mp hk with h1 | h2
      · exact absurd h1.symm hs
      · obtain ⟨wb, hfind, hid, hlab⟩ := ih h2
        refine ⟨wb, ?_, hid, hlab⟩
        dsimp only [List.map_cons]
        rw [List.find?_cons_of_neg _ (by simpa using hs)]
        exact hfind

theorem numeric_base_find (L : ℕ) (h1 : 1 ≤ L) (h2 : L ≤ 100) :
    ∃ wb, (templateBase true).wells.find? (fun x => x.id == strL "1-" ++ natToChars L)
        = some wb ∧ wb.label = natToChars L := by
  have hk : strL "1-" ++ natToChars L ∈ numericLabels10x10 := by
    unfold numericLabels10x10
    rw [List.mem_map]
    exact ⟨L - 1, by rw [List.mem_range]; omega, by rw [show L - 1 + 1 = L by omega]⟩
  obtain ⟨wb, hfind, hid, hlab⟩ := wellPlateDataNew_find _ (strL "10x10") _ hk
  refine ⟨wb, ?_, ?_⟩
  · show (templateBase true).wells.find? _ = some wb
    unfold templateBase
    rw [if_pos rfl]
    exact hfind
  · rw [hlab]
    have hdash : '-' ∉ natToChars L :=
      fun h => absurd (natToChars_all_digits L '-' h) (by decide)
    have hshape : strL "1-" ++ natToChars L = ['1'] ++ '-' :: natToChars L := rfl
    rw [hshape, splitOn_prefix_free (by decide) hdash]
    rfl

theorem alphaRow_char : ∀ c ∈ strL "ABCDEFGH",
    isAlphaC c = true ∧ c ≠ '-' ∧ c ≠ ',' ∧ c ≠ '\n' := by decide

theorem alpha_base_find (c : Char) (n : ℕ) (hc : c ∈ strL "ABCDEFGH")
    (h1 : 1 ≤ n) (h2 : n ≤ 12) :
    ∃ wb, (templateBase false).wells.find?
        (fun x => x.id == strL "1-" ++ (c :: natToChars n))
        = some wb ∧ wb.label = c :: natToChars n := by
  have hk : strL "1-" ++ (c :: natToChars n) ∈ alphaLabels8x12 := by
    unfold alphaLabels8x12
    rw [List.mem_flatMap]
    refine ⟨c, hc, ?_⟩
    rw [List.mem_map]
    exact ⟨n - 1, by rw [List.mem_range]; omega, by rw [show n - 1 + 1 = n by omega]⟩
  obtain ⟨wb, hfind, hid, hlab⟩ := wellPlateDataNew_find _ (strL "8x12") _ hk
  refine ⟨wb, ?_, ?_⟩
  · show (templateBase false).wells.find? _ = some wb
    unfold templateBase
    rw [if_neg (by simp)]
    exact hfind
  · rw [hlab]
    have hdash : '-' ∉ c :: natToChars n := by
      rw [List.mem_cons]
      rintro (h | h)
      · exact (alphaRow_char c hc).2.1 h.symm
      · exact absurd (natToChars_all_digits n '-' h) (by decide)
    have hshape : strL "1-" ++ (c :: natToChars n) = ['1'] ++ '-' :: (c :: natToChars n) :=
      rfl
    rw [hshape, splitOn_prefix_free (by decide) hdash]
    rfl

theorem templateBase_samples (b : Bool) : (templateBase b).samples = [] := by
  cases b <;> rfl

theorem wellTemplateRow_num (w : Well) (L : ℕ) (hL : 1 ≤ L)
    (hlab : w.label = natToChars L) :
    wellTemplateRow w
      = natToChars ((L - 1) / 10 + 1) :: natToChars (L - 10 * ((L - 1) / 10))
          :: w.reagents.map (fun r => printDecimal r.concentration) := by
  unfold wellTemplateRow
  rw [hlab, parseIntPrefix_digits (natToChars_ne_nil L) (natToChars_all_digits L)]
  rw [if_pos (by simp)]
  rw [charsToNat?_natToChars]
  simp only [Option.getD_some]
  rw [getWellsPositions_nat L hL]
  simp only [List.map_cons, List.map_nil, intToChars_ofNat, List.cons_append,
    List.nil_append]

theorem wellTemplateRow_alphaNum (w : Well) (ls ds : List Char) (hlne : ls ≠ [])
    (hdne : ds ≠ []) (hla : ∀ c ∈ ls, isAlphaC c = true)
    (hda : ∀ c ∈ ds, isDigitC c = true) (hlab : w.label = ls ++ ds) :
    wellTemplateRow w
      = ls :: ds :: w.reagents.map (fun r => printDecimal r.concentration) := by
  unfold wellTemplateRow
  rw [hlab]
  cases ls with
  | nil => exact absurd rfl hlne
  | cons c cs =>
    rw [show ((c :: cs) ++ ds) = c :: (cs ++ ds) by simp]
    rw [parseIntPrefix_alpha _ (hla c (List.mem_cons_self _ _))]
    rw [if_neg (by simp)]
    rw [show (c :: (cs ++ ds)) = ((c :: cs) ++ ds) by simp]
    rw [regexRuns_alpha_digits hlne hdne hla hda]
    simp

theorem except_ok_bind {α β : Type} (a : α) (f : α → Except JsError β) :
    (Except.ok a).bind f = f a := rfl

theorem readTemplateFromList_cons (h0 r1 : List (List Char))
    (rest : List (List (List Char))) :
    readTemplateFromList (h0 :: r1 :: rest)
      = ((r1 :: rest).mapM (templateRowRec (templateNumericDetect r1) h0)).bind
          (fun recs =>
            (recs.foldlM applyTemplateRec
                (templateBase (templateNumericDetect r1)).wells).bind
              (fun finalWells =>
                WellPlateData.updateSamples
                  { templateBase (templateNumericDetect r1) with wells := finalWells })) :=
  rfl

theorem template_round_trip_core (st : WellPlateData) (w0 : Well) (ws : List Well)
    (numeric : Bool)
    (hw : st.wells = w0 :: ws)
    (hshared : ∀ w ∈ st.wells, w.reagents.map (fun r => (r.label, r.unit))
        = w0.reagents.map (fun r => (r.label, r.unit)))
    (hsafe : ∀ r ∈ w0.reagents, HeaderSafe r)
    (hdec : ∀ w ∈ st.wells, ∀ r ∈ w.reagents, IsDec r.concentration)
    (hnodup : (st.wells.map Well.label).Nodup)
    (hrow : ∀ w ∈ st.wells, ∃ p1 p2,
      wellTemplateRow w
          = p1 :: p2 :: w.reagents.map (fun r => printDecimal r.concentration) ∧
      templateRowId numeric
          (p1 :: p2 :: w.reagents.map (fun r => printDecimal r.concentration))
        = strL "1-" ++ w.label ∧
      (∀ c ∈ p1, c ≠ ',' ∧ c ≠ '\n') ∧ (∀ c ∈ p2, c ≠ ',' ∧ c ≠ '\n'))
    (hdetect : templateNumericDetect (wellTemplateRow w0) = numeric)
    (hbase : ∀ w ∈ st.wells, ∃ wb,
      (templateBase numeric).wells.find? (fun x => x.id == strL "1-" ++ w.label)
        = some wb ∧ wb.label = w.label) :
    ∃ t st2, st.getTemplate = .ok t ∧ WellPlateData.readTemplate t = .ok st2 ∧
      ∀ w ∈ st.wells, ∃ w2 ∈ st2.wells, w2.label = w.label ∧ w2.reagents = w.reagents := by
  have hrows : st.templateRows
      = .ok ((strL "row" :: strL "column" :: w0.reagents.map reagentHeaderCell)
          :: (w0 :: ws).map wellTemplateRow) := by
    unfold WellPlateData.templateRows
    rw [hw]
  have hget : st.getTemplate
      = .ok (List.intercalate ['\n']
          (((strL "row" :: strL "column" :: w0.reagents.map reagentHeaderCell)
            :: (w0 :: ws).map wellTemplateRow).map
            (fun row => List.intercalate [','] row))) := by
    unfold WellPlateData.getTemplate
    rw [hrows]
    rfl
  have hcellsafe : ∀ row ∈ ((strL "row" :: strL "column"
        :: w0.reagents.map reagentHeaderCell) :: (w0 :: ws).map wellTemplateRow),
      row ≠ [] ∧ ∀ cell ∈ row, ∀ c ∈ cell, c ≠ ',' ∧ c ≠ '\n' := by
    intro row hrowmem
    rcases List.mem_cons.mp hrowmem with h1 | h2
    · subst h1
      refine ⟨by simp, ?_⟩
      intro cell hcell c hc
      rcases List.mem_cons.mp hcell with hA | hB
      · subst hA
        revert hc
        revert c
        decide
      rcases List.mem_cons.mp hB with hA2 | hB2
      · subst hA2
        revert hc
        revert c
        decide
      · rw [List.mem_map] at hB2
        obtain ⟨r, hrmem, rfl⟩ := hB2
        exact reagentHeaderCell_safe (hsafe r hrmem) c hc
    · rw [← hw, List.mem_map] at h2
      obtain ⟨w, hwmem, rfl⟩ := h2
      obtain ⟨p1, p2, hshape, _, hp1, hp2⟩ := hrow w hwmem
      rw [hshape]
      refine ⟨by simp, ?_⟩
      intro cell hcell c hc
      rcases List.mem_cons.mp hcell with h1 | hcell2
      · subst h1
        exact hp1 c hc
      rcases List.mem_cons.mp hcell2 with h1 | hcell3
      · subst h1
        exact hp2 c hc
      · rw [List.mem_map] at hcell3
        obtain ⟨r, hrmem, rfl⟩ := hcell3
        exact printDecimal_safe _ c hc
  have hsplits := template_text_splits _ ',' (by decide) (by simp) hcellsafe
  have hwsmap : wellTemplateRow w0 :: ws.map wellTemplateRow
      = st.wells.map wellTemplateRow := by
    rw [hw, List.map_cons]
  have hmapM : (st.wells.map wellTemplateRow).mapM
      (templateRowRec numeric
        (strL "row" :: strL "column" :: w0.reagents.map reagentHeaderCell))
      = .ok (st.wells.map (fun w =>
          ({ id := strL "1-" ++ w.label, reagents := w.reagents } : TemplateRec))) := by
    apply except_mapM_map_ok
    intro w hwmem
    obtain ⟨p1, p2, hshape, hid, _, _⟩ := hrow w hwmem
    rw [hshape,
      templateRowRec_eval numeric w0.reagents w p1 p2 (hshared w hwmem).symm hsafe
        (hdec w hwmem), hid]
  have hmem : ∀ r ∈ st.wells.map (fun w =>
        ({ id := strL "1-" ++ w.label, reagents := w.reagents } : TemplateRec)),
      ∃ wb, (templateBase numeric).wells.find? (fun x => x.id == r.id) = some wb := by
    intro r hr
    rw [List.mem_map] at hr
    obtain ⟨w, hwmem, rfl⟩ := hr
    obtain ⟨wb, hwb, _⟩ := hbase w hwmem
    exact ⟨wb, hwb⟩
  have hpw : List.Pairwise (fun a b : TemplateRec => a.id ≠ b.id)
      (st.wells.map (fun w =>
        ({ id := strL "1-" ++ w.label, reagents := w.reagents } : TemplateRec))) := by
    rw [List.pairwise_map]
    have h2 : st.wells.Pairwise (fun a b => a.label ≠ b.label) :=
      List.pairwise_map.mp hnodup
    exact h2.imp (fun h hid => h (List.append_cancel_left hid))
  obtain ⟨final, hfold, hmapf, hotherf, hrecf⟩ :=
    applyFold_ok _ (templateBase numeric).wells hmem hpw
  have hst2 : readTemplateFromList ((strL "row" :: strL "column"
        :: w0.reagents.map reagentHeaderCell) :: (w0 :: ws).map wellTemplateRow)
      = .ok { templateBase numeric with
          wells := final
          samples := initialSamples final } := by
    rw [List.map_cons, readTemplateFromList_cons, hdetect, hwsmap, hmapM]
    simp only [except_ok_bind]
    rw [hfold]
    simp only [except_ok_bind]
    rw [@updateSamples_of_empty { templateBase numeric with wells := final }
      (templateBase_samples numeric)]
  refine ⟨_, { templateBase numeric with
      wells := final
      samples := initialSamples final }, hget, ?_, ?_⟩
  · unfold WellPlateData.readTemplate
    rw [hsplits]
    exact hst2
  · intro w hwmem
    have hrw : ({ id := strL "1-" ++ w.label, reagents := w.reagents } : TemplateRec)
        ∈ st.wells.map (fun w =>
          ({ id := strL "1-" ++ w.label, reagents := w.reagents } : TemplateRec)) :=
      List.mem_map_of_mem _ hwmem
    obtain ⟨wb, hwbfind, hwbfinal⟩ := hrecf _ hrw
    obtain ⟨wb2, hwb2find, hwb2lab⟩ := hbase w hwmem
    have hwbeq : wb = wb2 := by
      rw [hwbfind] at hwb2find
      simpa using hwb2find
    subst hwbeq
    refine ⟨wb.updateReagents w.reagents, ?_, ?_, rfl⟩
    · show wb.updateReagents w.reagents ∈ final
      exact List.mem_of_find?_eq_some hwbfinal
    · show wb.label = w.label
      exact hwb2lab

/-- C1 (amended): for a non-empty plate whose wells share their reagent
labels and units, whose header text is unambiguous (`HeaderSafe`), whose
concentrations are finite decimals, whose positional labels are pairwise
distinct and fit one of the two layouts `readTemplate` reconstructs
(numeric 1..100 or letter A–H plus number 1..12), serializing with
`getTemplate` and re-parsing with `readTemplate` succeeds and reproduces
every well's reagent labels, units and concentrations exactly. -/
theorem template_round_trip (st : WellPlateData) (w0 : Well) (ws : List Well)
    (hw : st.wells = w0 :: ws)
    (hshared : ∀ w ∈ st.wells, w.reagents.map (fun r => (r.label, r.unit))
        = w0.reagents.map (fun r => (r.label, r.unit)))
    (hsafe : ∀ r ∈ w0.reagents, HeaderSafe r)
    (hdec : ∀ w ∈ st.wells, ∀ r ∈ w.reagents, IsDec r.concentration)
    (hnodup : (st.wells.map Well.label).Nodup)
    (hlayout : NumericLabels st ∨ AlphaLabels st) :
    ∃ t st2, st.getTemplate = .ok t ∧ WellPlateData.readTemplate t = .ok st2 ∧
      ∀ w ∈ st.wells, ∃ w2 ∈ st2.wells, w2.label = w.label ∧ w2.reagents = w.reagents := by
  rcases hlayout with hlay | hlay
  · refine template_round_trip_core st w0 ws true hw hshared hsafe hdec hnodup ?_ ?_ ?_
    · intro w hwmem
      obtain ⟨L, h1, h2, hlab⟩ := hlay w hwmem
      refine ⟨natToChars ((L - 1) / 10 + 1), natToChars (L - 10 * ((L - 1) / 10)),
        ?_, ?_, ?_, ?_⟩
      · rw [wellTemplateRow_num w L h1 hlab]
      · rw [templateRowId_numeric L h1, hlab]
      · exact digits_safe (natToChars_all_digits _)
      · exact digits_safe (natToChars_all_digits _)
    · obtain ⟨L, h1, h2, hlab⟩ := hlay w0 (by rw [hw]; exact List.mem_cons_self _ _)
      rw [wellTemplateRow_num w0 L h1 hlab]
      exact templateNumericDetect_digits _ (natToChars_ne_nil _) (natToChars_all_digits _)
        (natToChars_ne_nil _) (natToChars_all_digits _)
    · intro w hwmem
      obtain ⟨L, h1, h2, hlab⟩ := hlay w hwmem
      rw [hlab]
      exact numeric_base_find L h1 h2
  · refine template_round_trip_core st w0 ws false hw hshared hsafe hdec hnodup ?_ ?_ ?_
    · intro w hwmem
      obtain ⟨c, n, hc, h1, h2, hlab⟩ := hlay w hwmem
      refine ⟨[c], natToChars n, ?_, ?_, ?_, ?_⟩
      · exact wellTemplateRow_alphaNum w [c] (natToChars n) (by simp)
          (natToChars_ne_nil n)
          (by intro x hx; rw [List.mem_singleton] at hx; rw [hx]
              exact (alphaRow_char c hc).1)
          (natToChars_all_digits n) (by rw [hlab]; rfl)
      · rw [templateRowId_alpha, hlab]
        rfl
      · intro x hx
        rw [List.mem_singleton] at hx
        rw [hx]
        exact ⟨(alphaRow_char c hc).2.2.1, (alphaRow_char c hc).2.2.2⟩
      · exact digits_safe (natToChars_all_digits _)
    · obtain ⟨c, n, hc, h1, h2, hlab⟩ := hlay w0 (by rw [hw]; exact List.mem_cons_self _ _)
      rw [wellTemplateRow_alphaNum w0 [c] (natToChars n) (by simp)
        (natToChars_ne_nil n)
        (by intro x hx; rw [List.mem_singleton] at hx; rw [hx]
            exact (alphaRow_char c hc).1)
        (natToChars_all_digits n) (by rw [hlab]; rfl)]
      exact templateNumericDetect_alpha (alphaRow_char c hc).1 _
    · intro w hwmem
      obtain ⟨c, n, hc, h1, h2, hlab⟩ := hlay w hwmem
      rw [hlab]
      exact alpha_base_find c n hc h1 h2

set_option maxRecDepth 100000 in
/-- C1 counterexample to the unrestricted claim: the one-well plate with
the numeric label 101 shares its reagent labels and units trivially, yet
`getTemplate` followed by `readTemplate` raises (the reconstructed plate
assumes a 10×10 layout with labels 1..100, so `getWell` yields
`undefined` and the method call on it throws) instead of reproducing the
well's reagents. -/
theorem template_round_trip_counterexample :
    exPlate101.getTemplate.bind WellPlateData.readTemplate
        = .error .undefinedAccess ∧
    exPlate101.wells.map (fun w => w.reagents) = [[exReagentA]] :=
  ⟨by decide, by decide⟩

set_option maxRecDepth 400000 in
/-- Witness for C1 at the concrete two-well numeric plate. -/
theorem template_round_trip_witness :
    ∃ t st2, exPlateNum.getTemplate = .ok t ∧ WellPlateData.readTemplate t = .ok st2 ∧
      ∀ w ∈ exPlateNum.wells, ∃ w2 ∈ st2.wells,
        w2.label = w.label ∧ w2.reagents = w.reagents :=
  template_round_trip exPlateNum exWellN1 [exWellN12] rfl
    (by decide) (by decide) (by decide) (by decide)
    (Or.inl (by
      intro w hw
      rcases List.mem_cons.mp hw with h | h
      · exact ⟨1, by decide, by decide, by rw [h]; decide⟩
      rcases List.mem_cons.mp h with h2 | h2
      · exact ⟨12, by decide, by decide, by rw [h2]; decide⟩
      · exact absurd h2 (List.not_mem_nil w)))

end WellPlate

